import Mathlib

/-!
# Verification of the ADF shell-story engine

Shallow embedding of the structured-document transformation engine of the
`jira-mcp-auth-bridge` repository: the ADF node model, the section extractor
(`extractADFSection`, `removeADFSectionByHeading`), the shell-story
micro-parser (`parseShellStoriesFromAdf` and its helpers), and the
completion-marker mutator (`addCompletionMarkerToShellStory`).

Conventions of the embedding:
* JavaScript objects with optional fields become Lean structures/inductives
  with `Option` fields; a field that is `undefined` in JS is `none` here.
  A JS array-valued field that is present but empty is `some []` (JS treats
  `[]` as truthy, and the source checks `node.content` for truthiness).
* In-place mutation of nodes found by reference during traversal is modelled
  by pure functions returning the updated tree; `structuredClone` is modelled
  by an explicit recursive deep copy.
* `new Date().toISOString()` is modelled by a `now : String` parameter.
* Node attributes are modelled as an association list `String × Nat`
  (the only attribute the engine reads is the numeric heading `level`);
  mark attributes as `String × String` (the only one read is `href`).
-/

namespace ADF

/-- An inline mark on a text node (`em`, `strong`, `code`, `link`, ...).
`attrs` is the optional attribute bag (a `link` mark carries `href`). -/
structure ADFMark where
  mtype : String
  attrs : Option (List (String × String))
deriving DecidableEq, Repr

/-- An ADF node: open `type` tag, optional attribute bag, optional marks,
optional literal text, optional children.  Mirrors the TypeScript `ADFNode`
interface. -/
inductive ADFNode where
  | mk (ntype : String)
       (attrs : Option (List (String × Nat)))
       (marks : Option (List ADFMark))
       (text : Option String)
       (content : Option (List ADFNode))
deriving Repr

/-- The `type` field of a node. -/
def ADFNode.ntype : ADFNode → String
  | .mk t _ _ _ _ => t

/-- The `attrs` field of a node. -/
def ADFNode.attrs : ADFNode → Option (List (String × Nat))
  | .mk _ a _ _ _ => a

/-- The `marks` field of a node. -/
def ADFNode.marks : ADFNode → Option (List ADFMark)
  | .mk _ _ m _ _ => m

/-- The `text` field of a node. -/
def ADFNode.text : ADFNode → Option String
  | .mk _ _ _ tx _ => tx

/-- The `content` field of a node. -/
def ADFNode.content : ADFNode → Option (List ADFNode)
  | .mk _ _ _ _ c => c

instance : Inhabited ADFNode := ⟨.mk ("") none none none none⟩

mutual

/-- `structuredClone` on a single node: recursive deep copy. -/
def structuredCloneNode : ADFNode → ADFNode
  | .mk t a m tx none => .mk t a m tx none
  | .mk t a m tx (some c) => .mk t a m tx (some (structuredCloneList c))

/-- `structuredClone` on a node array. -/
def structuredCloneList : List ADFNode → List ADFNode
  | [] => []
  | n :: rest => structuredCloneNode n :: structuredCloneList rest

end

/-! ## String helpers mirroring the JavaScript string operations -/

/-- The separator glyph between title and description. -/
def sepChar : Char := '⟩'

/-- JS `String.prototype.trim`: drop whitespace from both ends. -/
def jsTrim (s : String) : String :=
  ⟨((s.data.dropWhile Char.isWhitespace).reverse.dropWhile Char.isWhitespace).reverse⟩

/-- JS `String.prototype.toLowerCase` (ASCII case folding). -/
def lowerStr (s : String) : String := ⟨s.data.map Char.toLower⟩

/-- `needle` occurs as a contiguous run inside `hay`. -/
def charsInfixOf (needle : List Char) : List Char → Bool
  | [] => needle.isEmpty
  | c :: rest => needle.isPrefixOf (c :: rest) || charsInfixOf needle rest

/-- JS `hay.includes(needle)`: substring containment. -/
def containsSubstr (hay needle : String) : Bool := charsInfixOf needle.data hay.data

/-- JS `String.prototype.split(c)` on the character level: the runs of
characters between occurrences of `c` (the result is never empty). -/
def splitOnChar (c : Char) : List Char → List (List Char)
  | [] => [[]]
  | x :: xs =>
    if x == c then [] :: splitOnChar c xs
    else
      match splitOnChar c xs with
      | [] => [[x]]
      | y :: ys => (x :: y) :: ys

/-- `node.text?.includes('⟩')` on an optional text field. -/
def optTextHasSep : Option String → Bool
  | none => false
  | some s => s.data.contains sepChar

/-- `text.split('⟩')[0]`: the part before the first separator glyph. -/
def sepSplitHead (s : String) : String := ⟨(splitOnChar sepChar s.data).headD []⟩

/-- `text.split('⟩')[1]`: the part between the first and second separator
glyph (`none` when there is no separator in `s`). -/
def sepSplitSecond (s : String) : Option String :=
  ((splitOnChar sepChar s.data).get? 1).map fun l => ⟨l⟩

/-- An optional text field is truthy: present and non-empty. -/
def textIsTruthy : Option String → Bool
  | none => false
  | some s => s != ""

/-- `t?.includes(needle)` on an optional text field. -/
def optTextContains (t : Option String) (needle : String) : Bool :=
  match t with
  | none => false
  | some s => containsSubstr s needle

/-! ## Mark helpers (`hasMarkType`, `getMarkAttribute`) -/

/-- `hasMarkType`: `node.marks?.some(mark => mark.type === markType) ?? false`. -/
def hasMarkType (node : ADFNode) (markType : String) : Bool :=
  match node.marks with
  | none => false
  | some ms => ms.any (fun m => m.mtype == markType)

/-- `getMarkAttribute`: `node.marks?.find(m => m.type === markType)?.attrs?.[attrName]`. -/
def getMarkAttribute (node : ADFNode) (markType : String) (attrName : String) : Option String :=
  match node.marks with
  | none => none
  | some ms =>
    match ms.find? (fun m => m.mtype == markType) with
    | none => none
    | some mark =>
      match mark.attrs with
      | none => none
      | some a => a.lookup attrName

/-! ## Shell-story micro-parser (`shell-story-parser.ts`) -/

/-- The regular expression `^st\d+$`: literal `st` followed by one or more
ASCII digits, matching the whole string. -/
def isStoryIdString (s : String) : Bool :=
  match s.data with
  | 's' :: 't' :: rest => !rest.isEmpty && rest.all Char.isDigit
  | _ => false

/-- `^st\d+$` applied to an optional text field (`undefined` never matches). -/
def storyIdMatch : Option String → Bool
  | none => false
  | some s => isStoryIdString s

/-- The claimed identifier pattern `^[a-z]+\d+$` (from the spec's wording):
one or more lowercase ASCII letters followed by one or more ASCII digits,
matching the whole string.  Kept only to compare against the source's
actual pattern `^st\d+$`. -/
def lettersThenDigits (s : String) : Bool :=
  !(s.data.takeWhile Char.isLower).isEmpty &&
    !(s.data.dropWhile Char.isLower).isEmpty &&
    (s.data.dropWhile Char.isLower).all Char.isDigit

/-- A code-marked text node whose text matches `^st\d+$`: the shape the
id scan of `extractStoryId` accepts. -/
def isStoryIdNode (n : ADFNode) : Bool :=
  n.ntype == "text" && hasMarkType n ("code") && storyIdMatch n.text

/-- Loop body of `extractStoryId`: first code-marked text node whose text
matches `^st\d+$`; returns its text. -/
def extractStoryIdAux : List ADFNode → Option String
  | [] => none
  | n :: rest => if isStoryIdNode n then n.text else extractStoryIdAux rest

/-- `extractStoryId`: scan the first paragraph of a list item's content for a
code-marked text node matching `^st\d+$`. -/
def extractStoryId (itemContent : List ADFNode) : Option String :=
  match itemContent.find? (fun n => n.ntype == "paragraph") with
  | none => none
  | some para =>
    match para.content with
    | none => none
    | some c => extractStoryIdAux c

/-- Loop of `extractTitleInfo`: state is (`foundId`, accumulated `title`,
`jiraUrl`); returns `(title.trim(), jiraUrl)` when id, separator and a truthy
title were found, `none` otherwise. -/
def extractTitleInfoAux : Bool → String → Option String → List ADFNode →
    Option (String × Option String)
  | _, _, _, [] => none
  | foundId, title, jiraUrl, n :: rest =>
    if n.ntype == "text" && hasMarkType n ("code") then
      extractTitleInfoAux true title jiraUrl rest
    else if n.ntype == "text" && optTextHasSep n.text then
      let t0 := sepSplitHead (n.text.getD (""))
      let title' := if t0 != "" then title ++ jsTrim t0 else title
      if foundId && title' != "" then some (jsTrim title', jiraUrl) else none
    else if foundId && n.ntype == "text" then
      let jiraUrl' :=
        if hasMarkType n ("link") then getMarkAttribute n ("link") ("href") else jiraUrl
      extractTitleInfoAux foundId (title ++ jsTrim (n.text.getD ("")) ++ " ") jiraUrl' rest
    else extractTitleInfoAux foundId title jiraUrl rest

/-- `extractTitleInfo`: title and completion link of a shell story, read from
the first paragraph of the list item. -/
def extractTitleInfo (itemContent : List ADFNode) : Option (String × Option String) :=
  match itemContent.find? (fun n => n.ntype == "paragraph") with
  | none => none
  | some para =>
    match para.content with
    | none => none
    | some c => extractTitleInfoAux false ("") none c

/-- Loop of `extractDescription`: state is (`foundSeparator`, accumulated
`description`); returns `description.trim()`. -/
def extractDescriptionAux : Bool → String → List ADFNode → String
  | _, description, [] => jsTrim description
  | foundSeparator, description, n :: rest =>
    if n.ntype == "text" then
      if optTextHasSep n.text then
        let description' :=
          match sepSplitSecond (n.text.getD ("")) with
          | some p1 => if p1 != "" then description ++ jsTrim p1 else description
          | none => description
        extractDescriptionAux true description' rest
      else if foundSeparator && !(hasMarkType n ("em")) then
        extractDescriptionAux foundSeparator (description ++ " " ++ jsTrim (n.text.getD (""))) rest
      else extractDescriptionAux foundSeparator description rest
    else if foundSeparator && n.ntype == "hardBreak" then
      extractDescriptionAux foundSeparator (description ++ "\n") rest
    else extractDescriptionAux foundSeparator description rest

/-- `extractDescription`: the text after the separator glyph in the first
paragraph, skipping emphasis-marked nodes, hard breaks become newlines. -/
def extractDescription (itemContent : List ADFNode) : String :=
  match itemContent.find? (fun n => n.ntype == "paragraph") with
  | none => ""
  | some para =>
    match para.content with
    | none => ""
    | some c => extractDescriptionAux false ("") c

mutual

/-- `extractTextFromAdfNodes` on one node: text nodes yield their text, hard
breaks a newline, other nodes recurse into their content. -/
def extractTextOfNode : ADFNode → String
  | .mk t _ _ tx none =>
    if t == "text" then tx.getD ("") else if t == "hardBreak" then "\n" else ""
  | .mk t _ _ tx (some c) =>
    if t == "text" then tx.getD ("")
    else if t == "hardBreak" then "\n"
    else extractTextOfList c

/-- `extractTextFromAdfNodes` on a node array. -/
def extractTextOfList : List ADFNode → String
  | [] => ""
  | n :: rest => extractTextOfNode n ++ extractTextOfList rest

end

/-- `extractTextFromAdfNodes(nodes)` with its `undefined` guard. -/
def extractTextFromAdfNodes : Option (List ADFNode) → String
  | none => ""
  | some l => extractTextOfList l

/-- Body of the `extractScreens` paragraph callback: a paragraph whose first
inline node is a truthy text containing `SCREENS:` contributes the `href` of
every link-marked text node (falsy hrefs are skipped). -/
def screensFromParagraphContent (c : List ADFNode) : List String :=
  match c with
  | [] => []
  | first :: _ =>
    if first.ntype == "text" && textIsTruthy first.text
        && optTextContains first.text ("SCREENS:") then
      c.filterMap fun n =>
        if n.ntype == "text" && hasMarkType n ("link") then
          match getMarkAttribute n ("link") ("href") with
          | some url => if url != "" then some url else none
          | none => none
        else none
    else []

/-- `extractScreens`: Figma URLs from the nested `SCREENS:` list. -/
def extractScreens (itemContent : List ADFNode) : List String :=
  itemContent.flatMap fun bl =>
    if bl.ntype == "bulletList" then
      match bl.content with
      | some blc => blc.flatMap fun li =>
          if li.ntype == "listItem" then
            match li.content with
            | some lic => lic.flatMap fun p =>
                if p.ntype == "paragraph" then
                  match p.content with
                  | some pc => screensFromParagraphContent pc
                  | none => []
                else []
            | none => []
          else []
      | none => []
    else []

/-- The anchored replace `paragraphText.replace(/^DEPENDENCIES:\s*/, '')`. -/
def stripDependenciesLabel (s : String) : String :=
  if ("DEPENDENCIES:").data.isPrefixOf s.data then
    ⟨(s.data.drop 13).dropWhile Char.isWhitespace⟩
  else s

/-- Body of the `extractDependencies` paragraph callback. -/
def dependenciesFromParagraphContent (c : List ADFNode) : List String :=
  match c with
  | [] => []
  | first :: _ =>
    if first.ntype == "text" && textIsTruthy first.text
        && optTextContains first.text ("DEPENDENCIES:") then
      let depsText := jsTrim (stripDependenciesLabel (extractTextOfList c))
      if lowerStr depsText == "none" then []
      else (splitOnChar (',') depsText.data).filterMap fun dep =>
        let v := jsTrim (⟨dep⟩ : String)
        if v != "" then some v else none
    else []

/-- `extractDependencies`: story ids from the nested `DEPENDENCIES:` list. -/
def extractDependencies (itemContent : List ADFNode) : List String :=
  itemContent.flatMap fun bl =>
    if bl.ntype == "bulletList" then
      match bl.content with
      | some blc => blc.flatMap fun li =>
          if li.ntype == "listItem" then
            match li.content with
            | some lic => lic.flatMap fun p =>
                if p.ntype == "paragraph" then
                  match p.content with
                  | some pc => dependenciesFromParagraphContent pc
                  | none => []
                else []
            | none => []
          else []
      | none => []
    else []

/-- A parsed shell story (`ParsedShellStoryADF`).  The source stores
`rawShellStoryMarkdown = convertAdfNodesToMarkdown([listItem])`, a total
one-way rendering consumed only by AI prompts and constrained by no claim;
we retain the originating subtree itself (the spec's `sourceSubtree`). -/
structure ParsedShellStoryADF where
  id : String
  title : String
  description : String
  jiraUrl : Option String
  screens : List String
  dependencies : List String
  rawShellStory : ADFNode

/-- Error for a record with no code-marked `st`-id. -/
def missingIdMessage : String :=
  "Shell story missing ID: Each story must start with a story ID like `st001`"

/-- Error for a record with no title/separator, naming the offending id. -/
def missingTitleMessage (storyId : String) : String :=
  "Shell story " ++ storyId ++ " missing title or separator (⟩): Format must be `"
    ++ storyId ++ "` **Title** ⟩ Description"

/-- Error for a record with an empty description, naming the offending id. -/
def missingDescriptionMessage (storyId : String) : String :=
  "Shell story " ++ storyId ++ " missing description after separator (⟩)"

/-- `parseShellStoryFromListItem`: `.ok none` models the JS `null` returns
(non-listItem or missing content); `.error` models the thrown structural
errors. -/
def parseShellStoryFromListItem (listItem : ADFNode) :
    Except String (Option ParsedShellStoryADF) :=
  if listItem.ntype == "listItem" then
    match listItem.content with
    | some lc =>
      match extractStoryId lc with
      | none => .error missingIdMessage
      | some storyId =>
        match extractTitleInfo lc with
        | none => .error (missingTitleMessage storyId)
        | some titleInfo =>
          let description := extractDescription lc
          if description == "" then .error (missingDescriptionMessage storyId)
          else .ok (some
            { id := storyId
              title := titleInfo.1
              description := description
              jiraUrl := titleInfo.2
              screens := extractScreens lc
              dependencies := extractDependencies lc
              rawShellStory := listItem })
    | none => .ok none
  else .ok none

/-- Inner `forEachWithContent` of `parseShellStoriesFromAdf`: parse each
listItem-with-content of a bullet list, propagating thrown errors. -/
def parseListItemsFromBulletList : List ADFNode → Except String (List ParsedShellStoryADF)
  | [] => .ok []
  | li :: rest =>
    if li.ntype == "listItem" && li.content.isSome then
      match parseShellStoryFromListItem li with
      | .error e => .error e
      | .ok none => parseListItemsFromBulletList rest
      | .ok (some st) =>
        match parseListItemsFromBulletList rest with
        | .error e => .error e
        | .ok sts => .ok (st :: sts)
    else parseListItemsFromBulletList rest

/-- Outer loop of `parseShellStoriesFromAdf` over top-level bullet lists. -/
def parseShellStoriesFromAdfAux : List ADFNode → Except String (List ParsedShellStoryADF)
  | [] => .ok []
  | b :: rest =>
    if b.ntype == "bulletList" && b.content.isSome then
      match parseListItemsFromBulletList (b.content.getD []) with
      | .error e => .error e
      | .ok xs =>
        match parseShellStoriesFromAdfAux rest with
        | .error e => .error e
        | .ok ys => .ok (xs ++ ys)
    else parseShellStoriesFromAdfAux rest

/-- `parseShellStoriesFromAdf`: all shell stories of a section, in document
order; a structural parse error aborts the whole parse. -/
def parseShellStoriesFromAdf (shellStoriesSection : List ADFNode) :
    Except String (List ParsedShellStoryADF) :=
  parseShellStoriesFromAdfAux shellStoriesSection

/-! ## Completion-marker mutator (`addCompletionMarkerToShellStory`) -/

/-- Rebuild a node with new marks. -/
def setMarks : ADFNode → Option (List ADFMark) → ADFNode
  | .mk t a _ tx c, m => .mk t a m tx c

/-- Rebuild a node with new (present) text. -/
def setText : ADFNode → String → ADFNode
  | .mk t a m _ c, s => .mk t a m (some s) c

/-- Rebuild a node with new content. -/
def setContent : ADFNode → Option (List ADFNode) → ADFNode
  | .mk t a m tx _, c => .mk t a m tx c

/-- The hyperlink mark `⦃type: link, attrs: ⦃href: url⦄⦄` (braces elided). -/
def linkMark (url : String) : ADFMark := ⟨"link", some [(("href"), url)]⟩

/-- `addLinkToNode`: add a link mark to a text node unless one is present. -/
def addLinkToNode (textNode : ADFNode) (url : String) : ADFNode :=
  if textNode.ntype == "text" then
    if hasMarkType textNode ("link") then textNode
    else setMarks textNode (some ((textNode.marks.getD []) ++ [linkMark url]))
  else textNode

/-- The `findTitleParts` scan fused with the `addLinkToNode` loop of the
mutator: walk the paragraph content with the `passedId` flag, add the link
mark to each title node (text node after the code-marked id and before the
first non-code text node containing the separator glyph), leave everything
else untouched, and stop at the separator. -/
def addLinkToTitleNodes (url : String) : Bool → List ADFNode → List ADFNode
  | _, [] => []
  | passedId, n :: rest =>
    if n.ntype == "text" && hasMarkType n ("code") then
      n :: addLinkToTitleNodes url true rest
    else if n.ntype == "text" && optTextHasSep n.text then n :: rest
    else if passedId && n.ntype == "text" then
      addLinkToNode n url :: addLinkToTitleNodes url passedId rest
    else n :: addLinkToTitleNodes url passedId rest

/-- A text node carrying the emphasis mark. -/
def isEmTextNode (n : ADFNode) : Bool := n.ntype == "text" && hasMarkType n ("em")

/-- The plain space text node appended before the timestamp. -/
def spaceTextNode : ADFNode := .mk ("text") none none (some (" ")) none

/-- The emphasis-marked timestamp text node. -/
def timestampTextNode (now : String) : ADFNode :=
  .mk ("text") none (some [⟨"em", none⟩]) (some ("(" ++ now ++ ")")) none

/-- `appendOrUpdateTimestamp`: overwrite the text of the first
emphasis-marked text node, or append a space and a fresh timestamp node. -/
def appendOrUpdateTimestamp (now : String) : List ADFNode → List ADFNode
  | [] => [spaceTextNode, timestampTextNode now]
  | n :: rest =>
    if isEmTextNode n then setText n ("(" ++ now ++ ")") :: rest
    else n :: appendOrUpdateTimestamp now rest

/-- Number of emphasis-marked text nodes in a paragraph's content. -/
def countEmTextNodes (c : List ADFNode) : Nat := c.countP isEmTextNode

/-- The mutation the completion marker performs on one paragraph node. -/
def transformParagraph (url now : String) (p : ADFNode) : ADFNode :=
  if p.ntype == "paragraph" then
    match p.content with
    | some c => setContent p (some (appendOrUpdateTimestamp now (addLinkToTitleNodes url false c)))
    | none => p
  else p

/-- The mutation on one list item: only items whose extracted story id
equals `storyId` have their paragraphs transformed. -/
def transformListItem (storyId url now : String) (li : ADFNode) : ADFNode :=
  if li.ntype == "listItem" then
    match li.content with
    | some lc =>
      if extractStoryId lc == some storyId then
        setContent li (some (lc.map (transformParagraph url now)))
      else li
    | none => li
  else li

/-- The mutation on one top-level node: only bullet lists with content are
entered. -/
def transformBulletList (storyId url now : String) (b : ADFNode) : ADFNode :=
  if b.ntype == "bulletList" then
    match b.content with
    | some bc => setContent b (some (bc.map (transformListItem storyId url now)))
    | none => b
  else b

/-- The `storyFound` flag: some bullet list of the section has a list item
whose extracted story id equals `storyId`. -/
def sectionContainsStory (S : List ADFNode) (storyId : String) : Bool :=
  S.any fun b =>
    b.ntype == "bulletList" &&
      (match b.content with
       | some bc => bc.any fun li =>
           li.ntype == "listItem" &&
             (match li.content with
              | some lc => extractStoryId lc == some storyId
              | none => false)
       | none => false)

/-- `addCompletionMarkerToShellStory`: deep-clone the section, link-mark the
title nodes and stamp the timestamp of every record matching `storyId`, or
throw when no record matches.  `issueKey` is accepted and unused, as in the
source; `now` stands for `new Date().toISOString()`. -/
def addCompletionMarkerToShellStory (shellStoriesSection : List ADFNode)
    (storyId issueKey issueUrl now : String) : Except String (List ADFNode) :=
  let newSection := structuredCloneList shellStoriesSection
  if sectionContainsStory newSection storyId then
    .ok (newSection.map (transformBulletList storyId issueUrl now))
  else
    .error (("Story ") ++ storyId ++ (" not found in Shell Stories section"))

/-! ## Well-formedness predicates for the mutator claims

The idempotence and round-trip claims hold for well-formed sections but not
for arbitrary node soups (the timestamp pass overwrites the first
emphasis-marked text node wherever it sits).  The predicates below spell
out the well-formedness actually needed; they are satisfied by every
section following the documented micro-syntax
`` `st001` **Title** ⟩ Description`` with an optional trailing emphasised
timestamp. -/

/-- A code-marked text node (the shape that carries record ids). -/
def isCodeTextNode (n : ADFNode) : Bool :=
  n.ntype == "text" && hasMarkType n ("code")

/-- A separator node: a non-code text node whose text contains the glyph
`⟩`.  Both title scans stop at the first such node. -/
def isBreakNode (n : ADFNode) : Bool :=
  n.ntype == "text" && !(hasMarkType n ("code")) && optTextHasSep n.text

/-- The observable part of a node the paragraph scans branch on: type tag,
text, code mark, emphasis mark. -/
def scanObs (n : ADFNode) : String × Option String × Bool × Bool :=
  (n.ntype, n.text, hasMarkType n ("code"), hasMarkType n ("em"))

/-- Well-formedness of one paragraph for idempotent completion marking: no
text node carries both the emphasis and the code mark; the first
emphasis-marked text node (the overwrite target), when present, has no
separator glyph in its text; and when no emphasis-marked node exists, the
paragraph either contains a separator node (stopping the title scan before
the appended timestamp) or no code-marked text node at all (so no title is
ever collected). -/
def markStableParagraph (c : List ADFNode) : Bool :=
  (c.all fun m => !(isEmTextNode m && hasMarkType m ("code"))) &&
  (match c.find? isEmTextNode with
   | some x => !(optTextHasSep x.text)
   | none => c.any isBreakNode || c.all fun m => !(isCodeTextNode m))

/-- Well-formedness of a section for idempotent marking of `storyId`: every
paragraph of every list item matching `storyId` is `markStableParagraph`. -/
def markStableSection (S : List ADFNode) (storyId : String) : Bool :=
  S.all fun b =>
    !(b.ntype == "bulletList") ||
      (match b.content with
       | some bc => bc.all fun li =>
           !(li.ntype == "listItem") ||
             (match li.content with
              | some lc =>
                !(extractStoryId lc == some storyId) ||
                  lc.all fun p =>
                    !(p.ntype == "paragraph") ||
                      (match p.content with
                       | some c => markStableParagraph c
                       | none => true)
              | none => true)
       | none => true)

/-- Well-formedness of one paragraph for parse round-tripping: no em-and-code
text node; the first emphasis-or-separator node is a pure separator node
(so a separator exists and precedes every emphasis-marked node — an
emphasised word inside the title would be overwritten by the timestamp
pass); and the first emphasis-marked node, when present, has no separator
glyph in its text. -/
def parseStableParagraph (c : List ADFNode) : Bool :=
  (c.all fun m => !(isEmTextNode m && hasMarkType m ("code"))) &&
  (match c.find? (fun m => isEmTextNode m || isBreakNode m) with
   | some first => isBreakNode first && !(isEmTextNode first)
   | none => false) &&
  (match c.find? isEmTextNode with
   | some x => !(optTextHasSep x.text)
   | none => true)

/-- Well-formedness of a section for parse round-tripping of `storyId`: the
first paragraph of every list item matching `storyId` is
`parseStableParagraph` (only the first paragraph feeds the parser). -/
def parseStableSection (S : List ADFNode) (storyId : String) : Bool :=
  S.all fun b =>
    !(b.ntype == "bulletList") ||
      (match b.content with
       | some bc => bc.all fun li =>
           !(li.ntype == "listItem") ||
             (match li.content with
              | some lc =>
                !(extractStoryId lc == some storyId) ||
                  (match lc.find? (fun n => n.ntype == "paragraph") with
                   | some p =>
                     match p.content with
                     | some c => parseStableParagraph c
                     | none => true
                   | none => true)
              | none => true)
       | none => true)

/-! ## Section extractor and remover (`extractADFSection`,
`removeADFSectionByHeading`, `countADFSectionsByHeading`) -/

/-- `node.attrs?.level || 2`: the effective heading level, defaulting to 2
when the attribute bag or the `level` key is absent or the level is falsy. -/
def nodeLevel (n : ADFNode) : Nat :=
  match n.attrs with
  | none => 2
  | some attrs =>
    match attrs.lookup ("level") with
    | none => 2
    | some 0 => 2
    | some l => l

/-- A heading node one of whose text children contains the (lowercased)
label as a case-insensitive substring. -/
def headingMatches (labelLower : String) (n : ADFNode) : Bool :=
  n.ntype == "heading" &&
    (match n.content with
     | none => false
     | some c => c.any fun cn =>
         cn.ntype == "text" &&
           (match cn.text with
            | none => false
            | some t => containsSubstr (lowerStr t) labelLower))

/-- First loop of the extractor/remover: index and effective level of the
first matching heading. -/
def findSectionStart (labelLower : String) : List ADFNode → Option (Nat × Nat)
  | [] => none
  | n :: rest =>
    if headingMatches labelLower n then some (0, nodeLevel n)
    else (findSectionStart labelLower rest).map fun p => (p.1 + 1, p.2)

/-- Second loop: offset of the first heading of effective level `≤
sectionLevel` in the nodes after the section start. -/
def findSectionEnd (sectionLevel : Nat) : List ADFNode → Option Nat
  | [] => none
  | n :: rest =>
    if n.ntype == "heading" && decide (nodeLevel n ≤ sectionLevel) then some 0
    else (findSectionEnd sectionLevel rest).map (· + 1)

/-- `extractADFSection`: returns `(section, remainingContent)`. -/
def extractADFSection (content : List ADFNode) (headingText : String) :
    List ADFNode × List ADFNode :=
  match findSectionStart (lowerStr headingText) content with
  | none => ([], content)
  | some (i, sectionLevel) =>
    let sectionEndIndex :=
      match findSectionEnd sectionLevel (content.drop (i + 1)) with
      | some d => i + 1 + d
      | none => content.length
    ((content.drop i).take (sectionEndIndex - i),
      content.take i ++ content.drop sectionEndIndex)

/-- `removeADFSectionByHeading`: drop the matched section, keep the rest. -/
def removeADFSectionByHeading (content : List ADFNode) (headingText : String) :
    List ADFNode :=
  match findSectionStart (lowerStr headingText) content with
  | none => content
  | some (i, sectionLevel) =>
    let sectionEndIndex :=
      match findSectionEnd sectionLevel (content.drop (i + 1)) with
      | some d => i + 1 + d
      | none => content.length
    content.take i ++ content.drop sectionEndIndex

/-- `countADFSectionsByHeading`: number of matching headings. -/
def countADFSectionsByHeading (content : List ADFNode) (headingText : String) : Nat :=
  content.countP (headingMatches (lowerStr headingText))

/-! ## Spec-side definitions for the section-extraction claim

`specExtractADFSectionRendered` renders claim C4's original wording, where a
heading matches when its whole rendered text contains the label;
`specExtractADFSection` renders the amended wording, where a heading matches
when some single text child contains the label.  Both follow the claim's
boundary algorithm literally: first matching heading at index `i` of level
`L`, first later heading of level `≤ L` at index `j` (or the length),
`section = content[i..j)`, `remainder = content[0..i) ++ content[j..)`. -/

/-- Index of the first element satisfying `p`. -/
def firstIdxWhere (p : α → Bool) : List α → Option Nat
  | [] => none
  | x :: xs => if p x then some 0 else (firstIdxWhere p xs).map (· + 1)

/-- Original claim wording: the heading's rendered text contains the label
as a case-insensitive substring. -/
def specHeadingMatchRendered (label : String) (n : ADFNode) : Bool :=
  n.ntype == "heading" &&
    containsSubstr (lowerStr (extractTextFromAdfNodes n.content)) (lowerStr label)

/-- Amended wording: some text child of the heading contains the label as a
case-insensitive substring. -/
def specHeadingMatch (label : String) (n : ADFNode) : Bool :=
  n.ntype == "heading" &&
    (n.content.getD []).any fun cn =>
      cn.ntype == "text" &&
        (match cn.text with
         | none => false
         | some t => containsSubstr (lowerStr t) (lowerStr label))

/-- The boundary algorithm of claim C4, parameterised by the heading-match
predicate. -/
def specExtractWith (isMatch : ADFNode → Bool) (content : List ADFNode) :
    List ADFNode × List ADFNode :=
  match firstIdxWhere isMatch content with
  | none => ([], content)
  | some i =>
    let sectionLevel := nodeLevel (content.getD i default)
    let j :=
      match firstIdxWhere
          (fun n => n.ntype == "heading" && decide (nodeLevel n ≤ sectionLevel))
          (content.drop (i + 1)) with
      | some d => i + 1 + d
      | none => content.length
    ((content.drop i).take (j - i), content.take i ++ content.drop j)

/-- Claim C4's algorithm with rendered-text heading matching (original
wording). -/
def specExtractADFSectionRendered (content : List ADFNode) (label : String) :
    List ADFNode × List ADFNode :=
  specExtractWith (specHeadingMatchRendered label) content

/-- Claim C4's algorithm with per-text-node heading matching (amended
wording). -/
def specExtractADFSection (content : List ADFNode) (label : String) :
    List ADFNode × List ADFNode :=
  specExtractWith (specHeadingMatch label) content

/-! ## Occurrence of a node inside a tree (for the preservation claims) -/

/-- `OccursIn u n`: the node `u` is `n` itself or occurs (at any depth)
inside `n`'s content. -/
inductive OccursIn (u : ADFNode) : ADFNode → Prop where
  | refl : OccursIn u u
  | child {n : ADFNode} {c : List ADFNode} {m : ADFNode} (hc : n.content = some c)
      (hm : m ∈ c) (h : OccursIn u m) : OccursIn u n

/-- `u` occurs in some node of the array `l`. -/
def OccursInList (u : ADFNode) (l : List ADFNode) : Prop := ∃ n ∈ l, OccursIn u n

/-- The node kinds the completion mutator recognizes and may rebuild; every
other kind passes through traversal and copying untouched. -/
def recognizedMutationTypes : List String := ["text", "paragraph", "listItem", "bulletList"]

/-- A sample node of an unrecognized kind, used to witness the
unknown-node-preservation claim. -/
def unknownSampleNode : ADFNode := .mk ("customPanel") (some [(("layout"), 1)]) none none none

/-- A sample section holding the story `st001` with `unknownSampleNode`
injected inside the story's list item. -/
def unknownSampleSection : List ADFNode :=
  [ADFNode.mk ("bulletList") none none none
    (some [ADFNode.mk ("listItem") none none none
      (some [ADFNode.mk ("paragraph") none none none
        (some [ADFNode.mk ("text") none (some [⟨"code", none⟩]) (some ("st001")) none,
               ADFNode.mk ("text") none none (some (" T ")) none,
               ADFNode.mk ("text") none none (some ("⟩ d")) none]),
             unknownSampleNode])])]

/-- The relation between nodes that the id scan cannot distinguish. -/
def IdScanEquiv (m m' : ADFNode) : Prop :=
  isStoryIdNode m = isStoryIdNode m' ∧ (isStoryIdNode m = true → m.text = m'.text)

/-- The projection of a parsed record constrained by the round-trip claim:
identifier, title and description. -/
def parsedStoryKey (r : ParsedShellStoryADF) : String × String × String :=
  (r.id, r.title, r.description)

/-- A story whose title holds an emphasised word (`Login *Fast*`): the
timestamp pass overwrites the emphasised word, so re-parsing after the
completion mutator changes the title. -/
def emTitleSection : List ADFNode :=
  [ADFNode.mk ("bulletList") none none none
    (some [ADFNode.mk ("listItem") none none none
      (some [ADFNode.mk ("paragraph") none none none
        (some [ADFNode.mk ("text") none (some [⟨"code", none⟩]) (some ("st001")) none,
               ADFNode.mk ("text") none none (some (" Login ")) none,
               ADFNode.mk ("text") none (some [⟨"em", none⟩]) (some ("Fast")) none,
               ADFNode.mk ("text") none none (some (" ⟩ fast checkout")) none])])])]

/-! ## Basic lemmas -/

mutual

/-- A deep copy reproduces the node exactly. -/
theorem structuredCloneNode_eq_self : ∀ n : ADFNode, structuredCloneNode n = n
  | .mk t a m tx none => by simp [structuredCloneNode]
  | .mk t a m tx (some c) => by
      simp [structuredCloneNode, structuredCloneList_eq_self c]

/-- A deep copy reproduces a node array exactly. -/
theorem structuredCloneList_eq_self : ∀ l : List ADFNode, structuredCloneList l = l
  | [] => by simp [structuredCloneList]
  | n :: rest => by
      simp [structuredCloneList, structuredCloneNode_eq_self n,
        structuredCloneList_eq_self rest]

end

/-! ## Claim C3: non-aliasing of the mutator

The mutator runs on `structuredClone` of its input and in this value-level
embedding is a pure function, so the input tree is untouched by
construction.  The substantive content is that the deep copy reproduces the
input tree exactly, hence the tree the mutation pass reads is deep-equal to
the caller's pre-call snapshot, and the result is fully determined by the
input tree's value. -/

/-- C3: the completion mutator builds its output from a deep copy of the
input section; the copy is structurally identical to the input, and the
mutator's result is the pure transformation of that value, so the input
section is unchanged by the call. -/
theorem markCompleted_nonAliasing (S : List ADFNode) (storyId issueKey issueUrl now : String) :
    structuredCloneList S = S ∧
    addCompletionMarkerToShellStory S storyId issueKey issueUrl now =
      (if sectionContainsStory S storyId then
        .ok (S.map (transformBulletList storyId issueUrl now))
      else
        .error (("Story ") ++ storyId ++ (" not found in Shell Stories section"))) := by
  refine ⟨structuredCloneList_eq_self S, ?_⟩
  simp only [addCompletionMarkerToShellStory, structuredCloneList_eq_self]

/-! ## Claim C7: lookup error when the story id is absent -/

/-- C7: when no record of the section has identifier `storyId`, the mutator
throws an error whose message embeds the missing id; being a pure function
of its input, it leaves the input section unchanged. -/
theorem markCompleted_lookupError (S : List ADFNode) (storyId issueKey issueUrl now : String)
    (h : sectionContainsStory S storyId = false) :
    addCompletionMarkerToShellStory S storyId issueKey issueUrl now =
      .error (("Story ") ++ storyId ++ (" not found in Shell Stories section")) ∧
    storyId.data <:+:
      (("Story ") ++ storyId ++ (" not found in Shell Stories section")).data := by
  constructor
  · simp only [addCompletionMarkerToShellStory, structuredCloneList_eq_self, h,
      Bool.false_eq_true, if_false]
  · exact ⟨("Story ").data, (" not found in Shell Stories section").data, by
      simp [String.data_append]⟩

/-- C7 witness: a concrete section (a single bullet list holding the story
`st001`) contains no story `st002`, and the mutator reports exactly that. -/
theorem markCompleted_lookupError_witness :
    sectionContainsStory
        [ADFNode.mk ("bulletList") none none none
          (some [ADFNode.mk ("listItem") none none none
            (some [ADFNode.mk ("paragraph") none none none
              (some [ADFNode.mk ("text") none (some [⟨"code", none⟩]) (some ("st001")) none])])])]
        ("st002") = false ∧
    addCompletionMarkerToShellStory
        [ADFNode.mk ("bulletList") none none none
          (some [ADFNode.mk ("listItem") none none none
            (some [ADFNode.mk ("paragraph") none none none
              (some [ADFNode.mk ("text") none (some [⟨"code", none⟩]) (some ("st001")) none])])])]
        ("st002") ("PROJ-7") ("https://jira.example/browse/PROJ-7")
        ("2025-01-15T10:30:00.000Z") =
      .error (("Story ") ++ ("st002") ++ (" not found in Shell Stories section")) :=
  ⟨by decide,
    (markCompleted_lookupError _ ("st002") ("PROJ-7") ("https://jira.example/browse/PROJ-7")
      ("2025-01-15T10:30:00.000Z") (by decide)).1⟩

/-! ## Claim C8: timestamp stamping -/

/-- Overwriting a node's text does not change whether it is an
emphasis-marked text node. -/
theorem isEmTextNode_setText (n : ADFNode) (s : String) :
    isEmTextNode (setText n s) = isEmTextNode n := by
  cases n
  simp [setText, isEmTextNode, hasMarkType, ADFNode.ntype, ADFNode.marks]

/-- When the paragraph has no emphasis-marked text node, the timestamp run
(space plus emphasised timestamp) is appended at the end. -/
theorem appendTimestamp_of_noEm (now : String) :
    ∀ c : List ADFNode, (∀ n ∈ c, isEmTextNode n = false) →
      appendOrUpdateTimestamp now c = c ++ [spaceTextNode, timestampTextNode now]
  | [], _ => by simp [appendOrUpdateTimestamp]
  | n :: rest, h => by
    have hn := h n (List.mem_cons_self _ _)
    have hrest := appendTimestamp_of_noEm now rest fun m hm => h m (List.mem_cons_of_mem _ hm)
    simp [appendOrUpdateTimestamp, hn, hrest]

/-- When the paragraph has an emphasis-marked text node, the first such node
has its text overwritten in place and nothing is appended. -/
theorem appendTimestamp_overwrite (now : String) :
    ∀ pre (n : ADFNode) post, (∀ m ∈ pre, isEmTextNode m = false) → isEmTextNode n = true →
      appendOrUpdateTimestamp now (pre ++ n :: post) =
        pre ++ setText n ("(" ++ now ++ ")") :: post
  | [], n, post, _, hn => by simp [appendOrUpdateTimestamp, hn]
  | p :: pre, n, post, h, hn => by
    have hp := h p (List.mem_cons_self _ _)
    have ih := appendTimestamp_overwrite now pre n post
      (fun m hm => h m (List.mem_cons_of_mem _ hm)) hn
    simp [appendOrUpdateTimestamp, hp, ih]

/-- The space node carries no emphasis mark. -/
theorem isEmTextNode_spaceTextNode : isEmTextNode spaceTextNode = false := rfl

/-- The timestamp node is an emphasis-marked text node. -/
theorem isEmTextNode_timestampTextNode (now : String) :
    isEmTextNode (timestampTextNode now) = true := rfl

/-- Stamping a paragraph holding at most one emphasis-marked text node
leaves exactly one emphasis-marked text node. -/
theorem appendTimestamp_count (now : String) :
    ∀ c : List ADFNode, countEmTextNodes c ≤ 1 →
      countEmTextNodes (appendOrUpdateTimestamp now c) = 1
  | [], _ => by
    simp [appendOrUpdateTimestamp, countEmTextNodes, List.countP_cons,
      isEmTextNode_spaceTextNode, isEmTextNode_timestampTextNode]
  | n :: rest, h => by
    by_cases hn : isEmTextNode n = true
    · have hx : appendOrUpdateTimestamp now (n :: rest) =
          setText n ("(" ++ now ++ ")") :: rest := by
        simp [appendOrUpdateTimestamp, hn]
      have h2 : List.countP isEmTextNode rest = 0 := by
        have h' := h
        simp only [countEmTextNodes, List.countP_cons, hn, eq_self_iff_true,
          if_true] at h'
        omega
      rw [hx]
      simp [countEmTextNodes, List.countP_cons, isEmTextNode_setText, hn, h2]
    · have hn' : isEmTextNode n = false := by simpa using hn
      have hx : appendOrUpdateTimestamp now (n :: rest) =
          n :: appendOrUpdateTimestamp now rest := by
        simp [appendOrUpdateTimestamp, hn']
      have hle : countEmTextNodes rest ≤ 1 := by
        have h' := h
        simp [countEmTextNodes, List.countP_cons, hn'] at h'
        simpa [countEmTextNodes] using h'
      have ih := appendTimestamp_count now rest hle
      rw [hx]
      simp [countEmTextNodes, List.countP_cons, hn']
      simpa [countEmTextNodes] using ih

/-- C8 (amended): `appendOrUpdateTimestamp` overwrites the text of the first
emphasis-marked text node anywhere in the paragraph, trailing or not; only
when no emphasis-marked text node exists does it append a plain space and an
emphasis-marked timestamp node; exactly one emphasis-marked text node
results whenever the input paragraph held at most one. -/
theorem appendOrUpdateTimestamp_spec (now : String) (c : List ADFNode) :
    ((∀ n ∈ c, isEmTextNode n = false) →
      appendOrUpdateTimestamp now c = c ++ [spaceTextNode, timestampTextNode now]) ∧
    (∀ pre n post, c = pre ++ n :: post → (∀ m ∈ pre, isEmTextNode m = false) →
      isEmTextNode n = true →
      appendOrUpdateTimestamp now c = pre ++ setText n ("(" ++ now ++ ")") :: post) ∧
    (countEmTextNodes c ≤ 1 → countEmTextNodes (appendOrUpdateTimestamp now c) = 1) := by
  refine ⟨appendTimestamp_of_noEm now c, ?_, appendTimestamp_count now c⟩
  intro pre n post hc hpre hn
  rw [hc]
  exact appendTimestamp_overwrite now pre n post hpre hn

/-- C8 witness: on a paragraph of one plain text node the timestamp run is
appended; on a paragraph whose single node is emphasis-marked the node is
overwritten in place; both end with exactly one emphasis-marked node. -/
theorem appendOrUpdateTimestamp_spec_witness :
    appendOrUpdateTimestamp ("2025-01-15T10:30:00.000Z")
        [ADFNode.mk ("text") none none (some ("t")) none] =
      [ADFNode.mk ("text") none none (some ("t")) none] ++
        [spaceTextNode, timestampTextNode ("2025-01-15T10:30:00.000Z")] ∧
    appendOrUpdateTimestamp ("2025-01-15T10:30:00.000Z")
        [ADFNode.mk ("text") none (some [⟨"em", none⟩]) (some ("old")) none] =
      [setText (ADFNode.mk ("text") none (some [⟨"em", none⟩]) (some ("old")) none)
        ("(" ++ "2025-01-15T10:30:00.000Z" ++ ")")] ∧
    countEmTextNodes (appendOrUpdateTimestamp ("2025-01-15T10:30:00.000Z")
        [ADFNode.mk ("text") none none (some ("t")) none]) = 1 :=
  ⟨(appendOrUpdateTimestamp_spec ("2025-01-15T10:30:00.000Z") _).1 (by decide),
   (appendOrUpdateTimestamp_spec ("2025-01-15T10:30:00.000Z")
      [ADFNode.mk ("text") none (some [⟨"em", none⟩]) (some ("old")) none]).2.1
     [] _ [] rfl (by decide) (by decide),
   (appendOrUpdateTimestamp_spec ("2025-01-15T10:30:00.000Z") _).2.2 (by decide)⟩

/-- C8 counterexample: in the paragraph `[em "note", plain "rest"]` no
emphasis-marked trailing text exists (the trailing node is plain), yet the
mutator overwrites the leading emphasis-marked node in place instead of
appending the space-and-timestamp run the claim prescribes. -/
theorem appendOrUpdateTimestamp_counterexample :
    appendOrUpdateTimestamp ("2025-01-15T10:30:00.000Z")
        [ADFNode.mk ("text") none (some [⟨"em", none⟩]) (some ("note")) none,
         ADFNode.mk ("text") none none (some ("rest")) none] =
      [ADFNode.mk ("text") none (some [⟨"em", none⟩])
          (some ("(2025-01-15T10:30:00.000Z)")) none,
       ADFNode.mk ("text") none none (some ("rest")) none] ∧
    isEmTextNode (ADFNode.mk ("text") none none (some ("rest")) none) = false ∧
    appendOrUpdateTimestamp ("2025-01-15T10:30:00.000Z")
        [ADFNode.mk ("text") none (some [⟨"em", none⟩]) (some ("note")) none,
         ADFNode.mk ("text") none none (some ("rest")) none] ≠
      [ADFNode.mk ("text") none (some [⟨"em", none⟩]) (some ("note")) none,
       ADFNode.mk ("text") none none (some ("rest")) none] ++
        [spaceTextNode, timestampTextNode ("2025-01-15T10:30:00.000Z")] := by
  refine ⟨rfl, rfl, ?_⟩
  intro h
  have h1 : appendOrUpdateTimestamp ("2025-01-15T10:30:00.000Z")
      [ADFNode.mk ("text") none (some [⟨"em", none⟩]) (some ("note")) none,
       ADFNode.mk ("text") none none (some ("rest")) none] =
      [ADFNode.mk ("text") none (some [⟨"em", none⟩])
          (some ("(2025-01-15T10:30:00.000Z)")) none,
       ADFNode.mk ("text") none none (some ("rest")) none] := rfl
  rw [h1] at h
  simp at h

/-! ## Claim C5: identifier extraction pattern -/

/-- The id scan returns the text of the first qualifying node. -/
theorem extractStoryIdAux_firstMatch (n : ADFNode) (post : List ADFNode) :
    ∀ pre, (∀ m ∈ pre, isStoryIdNode m = false) → isStoryIdNode n = true →
      extractStoryIdAux (pre ++ n :: post) = n.text
  | [], _, hn => by simp [extractStoryIdAux, hn]
  | p :: pre, h, hn => by
    have hp := h p (List.mem_cons_self _ _)
    have ih := extractStoryIdAux_firstMatch n post pre
      (fun m hm => h m (List.mem_cons_of_mem _ hm)) hn
    simp [extractStoryIdAux, hp, ih]

/-- C5 (amended): when the first paragraph of a list item contains a
code-marked text node whose literal text matches `^st\d+$` (literal `st`
followed by digits — not the spec's broader `^[a-z]+\d+$`), the parser
extracts the text of the first such node as the record's id. -/
theorem extractStoryId_firstMatch (itemContent : List ADFNode) (para : ADFNode)
    (c pre post : List ADFNode) (n : ADFNode)
    (hp : itemContent.find? (fun x => x.ntype == "paragraph") = some para)
    (hc : para.content = some c)
    (hsplit : c = pre ++ n :: post)
    (hn : isStoryIdNode n = true)
    (hpre : ∀ m ∈ pre, isStoryIdNode m = false) :
    extractStoryId itemContent = n.text ∧
    ∃ s, n.text = some s ∧ isStoryIdString s = true := by
  constructor
  · simp only [extractStoryId, hp, hc, hsplit]
    exact extractStoryIdAux_firstMatch n post pre hpre hn
  · have h' : storyIdMatch n.text = true := by
      simp only [isStoryIdNode, Bool.and_eq_true] at hn
      exact hn.2
    cases htx : n.text with
    | none => rw [htx] at h'; simp [storyIdMatch] at h'
    | some s =>
      rw [htx] at h'
      exact ⟨s, rfl, h'⟩

/-- C5 witness: for the item `[ st007 -code- , title..., ⟩ desc ]` the id
`st007` is extracted from the code-marked node. -/
theorem extractStoryId_firstMatch_witness :
    extractStoryId
        [ADFNode.mk ("paragraph") none none none
          (some [ADFNode.mk ("text") none (some [⟨"code", none⟩]) (some ("st007")) none,
                 ADFNode.mk ("text") none none (some (" Login ⟩ d")) none])] =
      some ("st007") :=
  (extractStoryId_firstMatch
    [ADFNode.mk ("paragraph") none none none
      (some [ADFNode.mk ("text") none (some [⟨"code", none⟩]) (some ("st007")) none,
             ADFNode.mk ("text") none none (some (" Login ⟩ d")) none])]
    (ADFNode.mk ("paragraph") none none none
      (some [ADFNode.mk ("text") none (some [⟨"code", none⟩]) (some ("st007")) none,
             ADFNode.mk ("text") none none (some (" Login ⟩ d")) none]))
    _ [] [ADFNode.mk ("text") none none (some (" Login ⟩ d")) none]
    (ADFNode.mk ("text") none (some [⟨"code", none⟩]) (some ("st007")) none)
    rfl rfl rfl (by decide) (by decide)).1

/-- C5 counterexample: `ab001` matches the spec's claimed pattern
`^[a-z]+\d+$` and sits in a code-marked text node of the item's first
paragraph, yet the parser extracts no id at all (its actual pattern is
`^st\d+$`), and record parsing fails with the missing-id error. -/
theorem extractStoryId_counterexample :
    lettersThenDigits ("ab001") = true ∧
    hasMarkType (ADFNode.mk ("text") none (some [⟨"code", none⟩]) (some ("ab001")) none)
      ("code") = true ∧
    extractStoryId
        [ADFNode.mk ("paragraph") none none none
          (some [ADFNode.mk ("text") none (some [⟨"code", none⟩]) (some ("ab001")) none,
                 ADFNode.mk ("text") none none (some (" Login ⟩ d")) none])] = none ∧
    parseShellStoryFromListItem
        (ADFNode.mk ("listItem") none none none
          (some [ADFNode.mk ("paragraph") none none none
            (some [ADFNode.mk ("text") none (some [⟨"code", none⟩]) (some ("ab001")) none,
                   ADFNode.mk ("text") none none (some (" Login ⟩ d")) none])])) =
      .error missingIdMessage := by
  refine ⟨by decide, by decide, by decide, ?_⟩
  rfl

/-! ## Claim C6: fail-fast structural parse errors -/

/-- A string is a substring of any string that embeds it in the middle. -/
theorem middleSubstring (a b x : String) : x.data <:+: (a ++ x ++ b).data :=
  ⟨a.data, b.data, by simp [String.data_append]⟩

/-- C6 (amended): for a list item with a content array, record parsing
throws exactly when the code-marked `st`-id is missing, the title/separator
scan fails (which also covers a present separator with an empty title), or
the description after the separator is empty; the title and description
errors embed the offending id. -/
theorem parseShellStory_error_characterization (li : ADFNode) (lc : List ADFNode)
    (ht : li.ntype = "listItem") (hc : li.content = some lc) :
    ((∃ e, parseShellStoryFromListItem li = .error e) ↔
      (extractStoryId lc = none ∨ extractTitleInfo lc = none ∨
        extractDescription lc = "")) ∧
    (extractStoryId lc = none →
      parseShellStoryFromListItem li = .error missingIdMessage) ∧
    (∀ sid, extractStoryId lc = some sid → extractTitleInfo lc = none →
      parseShellStoryFromListItem li = .error (missingTitleMessage sid) ∧
        sid.data <:+: (missingTitleMessage sid).data) ∧
    (∀ sid ti, extractStoryId lc = some sid → extractTitleInfo lc = some ti →
      extractDescription lc = "" →
      parseShellStoryFromListItem li = .error (missingDescriptionMessage sid) ∧
        sid.data <:+: (missingDescriptionMessage sid).data) := by
  have hb : (li.ntype == "listItem") = true := by simp [ht]
  cases hid : extractStoryId lc with
  | none =>
    have hrun : parseShellStoryFromListItem li = .error missingIdMessage := by
      simp [parseShellStoryFromListItem, hb, hc, hid]
    refine ⟨⟨fun _ => Or.inl rfl, fun _ => ⟨_, hrun⟩⟩, fun _ => hrun, ?_, ?_⟩
    · intro sid hsid
      exact absurd hsid (by simp)
    · intro sid ti hsid
      exact absurd hsid (by simp)
  | some sid =>
    cases hti : extractTitleInfo lc with
    | none =>
      have hrun : parseShellStoryFromListItem li = .error (missingTitleMessage sid) := by
        simp [parseShellStoryFromListItem, hb, hc, hid, hti]
      refine ⟨⟨fun _ => Or.inr (Or.inl rfl), fun _ => ⟨_, hrun⟩⟩, ?_, ?_, ?_⟩
      · intro h; exact absurd h (by simp)
      · intro sid' hsid' _
        have hss : sid' = sid := (Option.some.inj hsid').symm
        subst hss
        exact ⟨hrun, middleSubstring _ _ _⟩
      · intro sid' ti hsid' hti'
        exact absurd hti' (by simp)
    | some ti =>
      by_cases hd : extractDescription lc = ""
      · have hrun : parseShellStoryFromListItem li =
            .error (missingDescriptionMessage sid) := by
          simp [parseShellStoryFromListItem, hb, hc, hid, hti, hd]
        refine ⟨⟨fun _ => Or.inr (Or.inr hd), fun _ => ⟨_, hrun⟩⟩, ?_, ?_, ?_⟩
        · intro h; exact absurd h (by simp)
        · intro sid' hsid' hti'
          exact absurd hti' (by simp)
        · intro sid' ti' hsid' hti' _
          have hss : sid' = sid := (Option.some.inj hsid').symm
          subst hss
          exact ⟨hrun, middleSubstring _ _ _⟩
      · have hrun : parseShellStoryFromListItem li = .ok (some
            { id := sid
              title := ti.1
              description := extractDescription lc
              jiraUrl := ti.2
              screens := extractScreens lc
              dependencies := extractDependencies lc
              rawShellStory := li }) := by
          simp [parseShellStoryFromListItem, hb, hc, hid, hti, hd]
        refine ⟨⟨?_, ?_⟩, ?_, ?_, ?_⟩
        · intro ⟨e, he⟩
          rw [hrun] at he
          exact absurd he (by simp)
        · intro h
          rcases h with h | h | h
          · exact absurd h (by simp)
          · exact absurd h (by simp)
          · exact absurd h hd
        · intro h; exact absurd h (by simp)
        · intro sid' hsid' hti'
          exact absurd hti' (by simp)
        · intro sid' ti' hsid' hti' hd'
          exact absurd hd' hd

/-- C6 witness: an item missing its description errors with the
description message embedding the id `st001`; the characterization applied
to that concrete item. -/
theorem parseShellStory_error_characterization_witness :
    parseShellStoryFromListItem
        (ADFNode.mk ("listItem") none none none
          (some [ADFNode.mk ("paragraph") none none none
            (some [ADFNode.mk ("text") none (some [⟨"code", none⟩]) (some ("st001")) none,
                   ADFNode.mk ("text") none none (some ("Login ⟩")) none])])) =
      .error (missingDescriptionMessage ("st001")) ∧
    ("st001").data <:+: (missingDescriptionMessage ("st001")).data :=
  (parseShellStory_error_characterization
    (ADFNode.mk ("listItem") none none none
      (some [ADFNode.mk ("paragraph") none none none
        (some [ADFNode.mk ("text") none (some [⟨"code", none⟩]) (some ("st001")) none,
               ADFNode.mk ("text") none none (some ("Login ⟩")) none])]))
    [ADFNode.mk ("paragraph") none none none
      (some [ADFNode.mk ("text") none (some [⟨"code", none⟩]) (some ("st001")) none,
             ADFNode.mk ("text") none none (some ("Login ⟩")) none])]
    rfl rfl).2.2.2 ("st001")
    ⟨("Login"), none⟩ rfl rfl rfl

/-- C6 counterexample: the record `` st001 ⟩ desc`` has its code-marked id,
a separator glyph, and a non-empty description after it, yet the parser
still throws (the title before the separator is empty), so the claimed
"exactly when" characterization fails. -/
theorem parseShellStory_counterexample :
    extractStoryId
        [ADFNode.mk ("paragraph") none none none
          (some [ADFNode.mk ("text") none (some [⟨"code", none⟩]) (some ("st001")) none,
                 ADFNode.mk ("text") none none (some ("⟩ desc")) none])] =
      some ("st001") ∧
    optTextHasSep (some ("⟩ desc")) = true ∧
    extractDescription
        [ADFNode.mk ("paragraph") none none none
          (some [ADFNode.mk ("text") none (some [⟨"code", none⟩]) (some ("st001")) none,
                 ADFNode.mk ("text") none none (some ("⟩ desc")) none])] = "desc" ∧
    parseShellStoryFromListItem
        (ADFNode.mk ("listItem") none none none
          (some [ADFNode.mk ("paragraph") none none none
            (some [ADFNode.mk ("text") none (some [⟨"code", none⟩]) (some ("st001")) none,
                   ADFNode.mk ("text") none none (some ("⟩ desc")) none])])) =
      .error (missingTitleMessage ("st001")) := by
  refine ⟨by decide, by decide, ?_, ?_⟩ <;> rfl

/-! ## Claim C4: the section-extraction boundary algorithm -/

/-- The implementation's heading match equals the amended spec's heading
match (some single text child contains the label, case-insensitively). -/
theorem headingMatches_eq_spec (label : String) (n : ADFNode) :
    headingMatches (lowerStr label) n = specHeadingMatch label n := by
  cases n with
  | mk t a m tx c =>
    cases c <;>
      simp [headingMatches, specHeadingMatch, ADFNode.ntype, ADFNode.content]

/-- The boundary-search loop is the first-index search for a heading of
level at most `L`. -/
theorem findSectionEnd_eq_firstIdx (L : Nat) : ∀ l : List ADFNode,
    findSectionEnd L l =
      firstIdxWhere (fun n => n.ntype == "heading" && decide (nodeLevel n ≤ L)) l
  | [] => rfl
  | n :: rest => by
    rw [findSectionEnd, firstIdxWhere, findSectionEnd_eq_firstIdx L rest]

/-- The heading-search loop is the first-index search together with the
level of the found node. -/
theorem findSectionStart_eq_firstIdx (ll : String) : ∀ l : List ADFNode,
    findSectionStart ll l =
      (firstIdxWhere (headingMatches ll) l).map fun i => (i, nodeLevel (l.getD i default))
  | [] => rfl
  | n :: rest => by
    rw [findSectionStart, firstIdxWhere, findSectionStart_eq_firstIdx ll rest]
    by_cases h : headingMatches ll n = true
    · simp [h]
    · have h' : headingMatches ll n = false := by simpa using h
      cases hidx : firstIdxWhere (headingMatches ll) rest with
      | none => simp [h']
      | some k => simp [h', hidx]

/-- C4 (amended): section extraction follows the claimed boundary algorithm
with the heading-match condition read per text node: the first heading one
of whose text children contains the label (case-insensitive) starts the
section at its index `i` with level `L`; the section ends just before the
first later heading with level at most `L` (or at the array's end); the
extractor returns `(content[i..j), content[0..i) ++ content[j..))`, and an
empty section with the whole content as remainder when no heading
matches. -/
theorem extractADFSection_spec (content : List ADFNode) (label : String) :
    extractADFSection content label = specExtractADFSection content label := by
  unfold extractADFSection specExtractADFSection specExtractWith
  rw [findSectionStart_eq_firstIdx]
  have hp : headingMatches (lowerStr label) = specHeadingMatch label :=
    funext (headingMatches_eq_spec label)
  rw [hp]
  cases h : firstIdxWhere (specHeadingMatch label) content with
  | none => simp
  | some i =>
    simp [findSectionEnd_eq_firstIdx]

/-- C4 counterexample: a heading whose text is split over two text nodes
(`Shell ` and `Stories`).  Its rendered text contains the label
`Shell Stories`, so the claimed algorithm extracts the section, but the
implementation matches text node by text node, finds no heading, and
returns an empty section with everything as remainder. -/
theorem extractADFSection_counterexample :
    specHeadingMatchRendered ("Shell Stories")
        (ADFNode.mk ("heading") (some [(("level"), 2)]) none none
          (some [ADFNode.mk ("text") none none (some ("Shell ")) none,
                 ADFNode.mk ("text") none none (some ("Stories")) none])) = true ∧
    extractADFSection
        [ADFNode.mk ("heading") (some [(("level"), 2)]) none none
          (some [ADFNode.mk ("text") none none (some ("Shell ")) none,
                 ADFNode.mk ("text") none none (some ("Stories")) none]),
         ADFNode.mk ("paragraph") none none none (some [])]
        ("Shell Stories") =
      ([],
        [ADFNode.mk ("heading") (some [(("level"), 2)]) none none
          (some [ADFNode.mk ("text") none none (some ("Shell ")) none,
                 ADFNode.mk ("text") none none (some ("Stories")) none]),
         ADFNode.mk ("paragraph") none none none (some [])]) ∧
    specExtractADFSectionRendered
        [ADFNode.mk ("heading") (some [(("level"), 2)]) none none
          (some [ADFNode.mk ("text") none none (some ("Shell ")) none,
                 ADFNode.mk ("text") none none (some ("Stories")) none]),
         ADFNode.mk ("paragraph") none none none (some [])]
        ("Shell Stories") =
      ([ADFNode.mk ("heading") (some [(("level"), 2)]) none none
          (some [ADFNode.mk ("text") none none (some ("Shell ")) none,
                 ADFNode.mk ("text") none none (some ("Stories")) none]),
        ADFNode.mk ("paragraph") none none none (some [])],
       []) := by
  refine ⟨by decide, ?_, ?_⟩ <;> rfl

/-! ## Claim C10: a level-less heading is treated as level 2 -/

/-- `attrs?.level || 2` yields 2 when the attribute bag or the level key is
absent, or the level is the falsy 0. -/
theorem nodeLevel_eq_two_of_falsy (n : ADFNode)
    (h : (n.attrs.bind fun a => List.lookup ("level") a) = none ∨
         (n.attrs.bind fun a => List.lookup ("level") a) = some 0) :
    nodeLevel n = 2 := by
  unfold nodeLevel
  cases ha : n.attrs with
  | none => rfl
  | some a =>
    rw [ha] at h
    have h' : List.lookup ("level") a = none ∨ List.lookup ("level") a = some 0 := by
      simpa using h
    rcases h' with h' | h' <;> simp [h']

/-- The heading-search loop skips a prefix of non-matching nodes. -/
theorem findSectionStart_append (ll : String) : ∀ (pre rest : List ADFNode),
    (∀ n ∈ pre, headingMatches ll n = false) →
    findSectionStart ll (pre ++ rest) =
      (findSectionStart ll rest).map fun p => (p.1 + pre.length, p.2)
  | [], rest, _ => by
    cases h : findSectionStart ll rest with
    | none => simp [h]
    | some p => simp [h]
  | q :: pre, rest, h => by
    have hq := h q (List.mem_cons_self _ _)
    have ih := findSectionStart_append ll pre rest
      fun n hn => h n (List.mem_cons_of_mem _ hn)
    rw [List.cons_append, findSectionStart, hq, ih]
    cases hs : findSectionStart ll rest with
    | none => simp
    | some p => simp; omega

/-- The boundary-search loop runs past non-heading nodes and stops at the
first heading of level at most `L`. -/
theorem findSectionEnd_append (L : Nat) : ∀ (mid : List ADFNode) (h1 : ADFNode)
    (post : List ADFNode), (∀ n ∈ mid, n.ntype ≠ "heading") →
    h1.ntype = "heading" → nodeLevel h1 ≤ L →
    findSectionEnd L (mid ++ h1 :: post) = some mid.length
  | [], h1, post, _, hh, hl => by
    simp [findSectionEnd, hh, hl]
  | q :: mid, h1, post, h, hh, hl => by
    have hq : q.ntype ≠ "heading" := h q (List.mem_cons_self _ _)
    have hq' : (q.ntype == "heading") = false := by
      simpa using hq
    have ih := findSectionEnd_append L mid h1 post
      (fun n hn => h n (List.mem_cons_of_mem _ hn)) hh hl
    rw [List.cons_append, findSectionEnd, hq']
    simp [ih]

/-- C10: a heading with no `level` attribute (or a falsy one) has effective
level 2 in the extractor's and remover's shared level computation, and
consequently terminates any section whose starting heading has level at
least 2: both `extractADFSection` and `removeADFSectionByHeading` end the
section just before such a heading. -/
theorem levelless_heading_boundary
    (pre mid post : List ADFNode) (h0 h1 : ADFNode) (label : String)
    (hpre : ∀ n ∈ pre, headingMatches (lowerStr label) n = false)
    (hh0 : headingMatches (lowerStr label) h0 = true)
    (hL : 2 ≤ nodeLevel h0)
    (hmid : ∀ n ∈ mid, n.ntype ≠ "heading")
    (hh1 : h1.ntype = "heading")
    (hlev : (h1.attrs.bind fun a => List.lookup ("level") a) = none ∨
            (h1.attrs.bind fun a => List.lookup ("level") a) = some 0) :
    nodeLevel h1 = 2 ∧
    extractADFSection (pre ++ h0 :: (mid ++ h1 :: post)) label =
      (h0 :: mid, pre ++ h1 :: post) ∧
    removeADFSectionByHeading (pre ++ h0 :: (mid ++ h1 :: post)) label =
      pre ++ h1 :: post := by
  have h2 : nodeLevel h1 = 2 := nodeLevel_eq_two_of_falsy h1 hlev
  have hstart : findSectionStart (lowerStr label) (pre ++ h0 :: (mid ++ h1 :: post)) =
      some (pre.length, nodeLevel h0) := by
    rw [findSectionStart_append (lowerStr label) pre _ hpre, findSectionStart, hh0]
    simp
  have hsplit1 : pre ++ h0 :: (mid ++ h1 :: post) = (pre ++ [h0]) ++ (mid ++ h1 :: post) := by
    simp
  have hlen1 : (pre ++ [h0]).length = pre.length + 1 := by simp
  have hdrop : (pre ++ h0 :: (mid ++ h1 :: post)).drop (pre.length + 1) =
      mid ++ h1 :: post := by
    rw [hsplit1, ← hlen1]
    exact List.drop_left _ _
  have hend : findSectionEnd (nodeLevel h0)
      ((pre ++ h0 :: (mid ++ h1 :: post)).drop (pre.length + 1)) =
      some mid.length := by
    rw [hdrop]
    exact findSectionEnd_append (nodeLevel h0) mid h1 post hmid hh1 (h2 ▸ hL)
  have hj : pre.length + 1 + mid.length - pre.length = mid.length + 1 := by omega
  have htake : (pre ++ h0 :: (mid ++ h1 :: post)).take pre.length = pre :=
    List.take_left pre _
  have hsplit2 : pre ++ h0 :: (mid ++ h1 :: post) = (pre ++ h0 :: mid) ++ (h1 :: post) := by
    simp
  have hlen2 : (pre ++ h0 :: mid).length = pre.length + 1 + mid.length := by
    simp
    omega
  have hdropj : (pre ++ h0 :: (mid ++ h1 :: post)).drop (pre.length + 1 + mid.length) =
      h1 :: post := by
    rw [hsplit2, ← hlen2]
    exact List.drop_left _ _
  have hdropi : (pre ++ h0 :: (mid ++ h1 :: post)).drop pre.length =
      h0 :: (mid ++ h1 :: post) :=
    List.drop_left pre _
  have hsec : ((pre ++ h0 :: (mid ++ h1 :: post)).drop pre.length).take
      (pre.length + 1 + mid.length - pre.length) = h0 :: mid := by
    rw [hdropi, hj, List.take_succ_cons]
    congr 1
    exact List.take_left mid _
  refine ⟨h2, ?_, ?_⟩
  · simp only [extractADFSection, hstart, hend]
    rw [hsec, htake, hdropj]
  · simp only [removeADFSectionByHeading, hstart, hend]
    rw [htake, hdropj]

/-- C10 witness: a concrete section whose level-2 `Shell Stories` heading is
followed by one paragraph and then a level-less heading; both the extractor
and the remover cut just before the level-less heading. -/
theorem levelless_heading_boundary_witness :
    nodeLevel (ADFNode.mk ("heading") none none none
      (some [ADFNode.mk ("text") none none (some ("Other")) none])) = 2 ∧
    extractADFSection
        [ADFNode.mk ("heading") (some [(("level"), 2)]) none none
          (some [ADFNode.mk ("text") none none (some ("Shell Stories")) none]),
         ADFNode.mk ("paragraph") none none none (some []),
         ADFNode.mk ("heading") none none none
          (some [ADFNode.mk ("text") none none (some ("Other")) none])]
        ("Shell Stories") =
      ([ADFNode.mk ("heading") (some [(("level"), 2)]) none none
          (some [ADFNode.mk ("text") none none (some ("Shell Stories")) none]),
        ADFNode.mk ("paragraph") none none none (some [])],
       [ADFNode.mk ("heading") none none none
          (some [ADFNode.mk ("text") none none (some ("Other")) none])]) ∧
    removeADFSectionByHeading
        [ADFNode.mk ("heading") (some [(("level"), 2)]) none none
          (some [ADFNode.mk ("text") none none (some ("Shell Stories")) none]),
         ADFNode.mk ("paragraph") none none none (some []),
         ADFNode.mk ("heading") none none none
          (some [ADFNode.mk ("text") none none (some ("Other")) none])]
        ("Shell Stories") =
      [ADFNode.mk ("heading") none none none
        (some [ADFNode.mk ("text") none none (some ("Other")) none])] :=
  levelless_heading_boundary
    [] [ADFNode.mk ("paragraph") none none (Option.none) (some [])]
    [] (ADFNode.mk ("heading") (some [(("level"), 2)]) none none
      (some [ADFNode.mk ("text") none none (some ("Shell Stories")) none]))
    (ADFNode.mk ("heading") none none none
      (some [ADFNode.mk ("text") none none (some ("Other")) none]))
    ("Shell Stories")
    (by intro n hn; cases hn) (by decide) (by decide)
    (by intro n hn; simp at hn; subst hn; decide) rfl (Or.inl rfl)

/-! ## Claim C9: unknown-node preservation -/

/-- Rebuilding marks keeps the content. -/
theorem setMarks_content (n : ADFNode) (ms : Option (List ADFMark)) :
    (setMarks n ms).content = n.content := by cases n; rfl

/-- Overwriting text keeps the content. -/
theorem setText_content (n : ADFNode) (s : String) :
    (setText n s).content = n.content := by cases n; rfl

/-- Rebuilding content yields that content. -/
theorem setContent_content (n : ADFNode) (c : Option (List ADFNode)) :
    (setContent n c).content = c := by cases n; rfl

/-- Rebuilding marks keeps the type tag. -/
theorem setMarks_ntype (n : ADFNode) (ms : Option (List ADFMark)) :
    (setMarks n ms).ntype = n.ntype := by cases n; rfl

/-- Overwriting text keeps the type tag. -/
theorem setText_ntype (n : ADFNode) (s : String) :
    (setText n s).ntype = n.ntype := by cases n; rfl

/-- Rebuilding content keeps the type tag. -/
theorem setContent_ntype (n : ADFNode) (c : Option (List ADFNode)) :
    (setContent n c).ntype = n.ntype := by cases n; rfl

/-- A non-text node survives `addLinkToNode` wherever it occurs. -/
theorem occursIn_addLinkToNode {u : ADFNode} (hu : u.ntype ≠ "text")
    (n : ADFNode) (url : String) (h : OccursIn u n) :
    OccursIn u (addLinkToNode n url) := by
  unfold addLinkToNode
  split
  case isTrue ht =>
    split
    · exact h
    · cases h with
      | refl => exact absurd (by simpa using ht) hu
      | child hc hm h' => exact OccursIn.child (by rw [setMarks_content]; exact hc) hm h'
  case isFalse ht => exact h

/-- A non-text node survives a text overwrite of a text node. -/
theorem occursIn_setText {u : ADFNode} (hu : u.ntype ≠ "text")
    (n : ADFNode) (s : String) (hn : n.ntype = "text") (h : OccursIn u n) :
    OccursIn u (setText n s) := by
  cases h with
  | refl => exact absurd hn hu
  | child hc hm h' => exact OccursIn.child (by rw [setText_content]; exact hc) hm h'

/-- A non-text node survives the title-link pass wherever it occurs. -/
theorem occursInList_addLinkToTitleNodes {u : ADFNode} (hu : u.ntype ≠ "text")
    (url : String) : ∀ (b : Bool) (c : List ADFNode), OccursInList u c →
      OccursInList u (addLinkToTitleNodes url b c)
  | _, [], h => by rcases h with ⟨n, hn, _⟩; cases hn
  | b, x :: rest, h => by
    rcases h with ⟨n, hn, ho⟩
    rw [addLinkToTitleNodes]
    by_cases h1 : (x.ntype == "text" && hasMarkType x ("code")) = true
    · rw [if_pos h1]
      rcases List.mem_cons.mp hn with rfl | hn'
      · exact ⟨n, List.mem_cons_self _ _, ho⟩
      · rcases occursInList_addLinkToTitleNodes hu url true rest ⟨n, hn', ho⟩ with ⟨m, hm, ho'⟩
        exact ⟨m, List.mem_cons_of_mem _ hm, ho'⟩
    · rw [if_neg h1]
      by_cases h2 : (x.ntype == "text" && optTextHasSep x.text) = true
      · rw [if_pos h2]
        exact ⟨n, hn, ho⟩
      · rw [if_neg h2]
        by_cases h3 : (b && (x.ntype == "text")) = true
        · rw [if_pos h3]
          rcases List.mem_cons.mp hn with rfl | hn'
          · exact ⟨addLinkToNode n url, List.mem_cons_self _ _,
              occursIn_addLinkToNode hu n url ho⟩
          · rcases occursInList_addLinkToTitleNodes hu url b rest ⟨n, hn', ho⟩ with ⟨m, hm, ho'⟩
            exact ⟨m, List.mem_cons_of_mem _ hm, ho'⟩
        · rw [if_neg h3]
          rcases List.mem_cons.mp hn with rfl | hn'
          · exact ⟨n, List.mem_cons_self _ _, ho⟩
          · rcases occursInList_addLinkToTitleNodes hu url b rest ⟨n, hn', ho⟩ with ⟨m, hm, ho'⟩
            exact ⟨m, List.mem_cons_of_mem _ hm, ho'⟩

/-- A non-text node survives the timestamp pass wherever it occurs. -/
theorem occursInList_appendOrUpdateTimestamp {u : ADFNode} (hu : u.ntype ≠ "text")
    (now : String) : ∀ c : List ADFNode, OccursInList u c →
      OccursInList u (appendOrUpdateTimestamp now c)
  | [], h => by rcases h with ⟨n, hn, _⟩; cases hn
  | x :: rest, h => by
    rcases h with ⟨n, hn, ho⟩
    rw [appendOrUpdateTimestamp]
    by_cases hx : isEmTextNode x = true
    · rw [if_pos hx]
      rcases List.mem_cons.mp hn with rfl | hn'
      · have hxt : n.ntype = "text" := by
          simp only [isEmTextNode, Bool.and_eq_true, beq_iff_eq] at hx
          exact hx.1
        exact ⟨setText n _, List.mem_cons_self _ _, occursIn_setText hu n _ hxt ho⟩
      · exact ⟨n, List.mem_cons_of_mem _ hn', ho⟩
    · rw [if_neg hx]
      rcases List.mem_cons.mp hn with rfl | hn'
      · exact ⟨n, List.mem_cons_self _ _, ho⟩
      · rcases occursInList_appendOrUpdateTimestamp hu now rest ⟨n, hn', ho⟩ with ⟨m, hm, ho'⟩
        exact ⟨m, List.mem_cons_of_mem _ hm, ho'⟩

/-- A node that is neither text nor paragraph survives the paragraph
transformation wherever it occurs. -/
theorem occursIn_transformParagraph {u : ADFNode} (hu1 : u.ntype ≠ "text")
    (hu2 : u.ntype ≠ "paragraph") (url now : String) (p : ADFNode)
    (h : OccursIn u p) : OccursIn u (transformParagraph url now p) := by
  unfold transformParagraph
  by_cases hp : (p.ntype == "paragraph") = true
  · rw [if_pos hp]
    cases hcp : p.content with
    | none => exact h
    | some c =>
      cases h with
      | refl => exact absurd (by simpa using hp) hu2
      | child hc hm h' =>
        rw [hcp] at hc
        obtain rfl := Option.some.inj hc
        have hocc : OccursInList u (appendOrUpdateTimestamp now (addLinkToTitleNodes url false _)) :=
          occursInList_appendOrUpdateTimestamp hu1 now _
            (occursInList_addLinkToTitleNodes hu1 url false _ ⟨_, hm, h'⟩)
        rcases hocc with ⟨m', hm', ho'⟩
        exact OccursIn.child (setContent_content _ _) hm' ho'
  · rw [if_neg hp]
    exact h

/-- A node that is none of text, paragraph, listItem survives the list-item
transformation wherever it occurs. -/
theorem occursIn_transformListItem {u : ADFNode} (hu1 : u.ntype ≠ "text")
    (hu2 : u.ntype ≠ "paragraph") (hu3 : u.ntype ≠ "listItem")
    (storyId url now : String) (li : ADFNode) (h : OccursIn u li) :
    OccursIn u (transformListItem storyId url now li) := by
  unfold transformListItem
  by_cases hli : (li.ntype == "listItem") = true
  · rw [if_pos hli]
    cases hcl : li.content with
    | none => exact h
    | some lc =>
      dsimp only
      by_cases hid : (extractStoryId lc == some storyId) = true
      · rw [if_pos hid]
        cases h with
        | refl => exact absurd (by simpa using hli) hu3
        | child hc hm h' =>
          rw [hcl] at hc
          obtain rfl := Option.some.inj hc
          exact OccursIn.child (setContent_content _ _)
            (List.mem_map_of_mem _ hm)
            (occursIn_transformParagraph hu1 hu2 url now _ h')
      · rw [if_neg hid]
        exact h
  · rw [if_neg hli]
    exact h

/-- A node of unrecognized kind survives the bullet-list transformation
wherever it occurs. -/
theorem occursIn_transformBulletList {u : ADFNode} (hu1 : u.ntype ≠ "text")
    (hu2 : u.ntype ≠ "paragraph") (hu3 : u.ntype ≠ "listItem")
    (hu4 : u.ntype ≠ "bulletList") (storyId url now : String) (b : ADFNode)
    (h : OccursIn u b) : OccursIn u (transformBulletList storyId url now b) := by
  unfold transformBulletList
  by_cases hb : (b.ntype == "bulletList") = true
  · rw [if_pos hb]
    cases hcb : b.content with
    | none => exact h
    | some bc =>
      cases h with
      | refl => exact absurd (by simpa using hb) hu4
      | child hc hm h' =>
        rw [hcb] at hc
        obtain rfl := Option.some.inj hc
        exact OccursIn.child (setContent_content _ _)
          (List.mem_map_of_mem _ hm)
          (occursIn_transformListItem hu1 hu2 hu3 storyId url now _ h')
  · rw [if_neg hb]
    exact h

/-- The heading-search loop only reports indices inside the array. -/
theorem findSectionStart_lt_length (ll : String) : ∀ (l : List ADFNode) (i L : Nat),
    findSectionStart ll l = some (i, L) → i < l.length
  | [], i, L, h => by simp [findSectionStart] at h
  | n :: rest, i, L, h => by
    rw [findSectionStart] at h
    by_cases hm : headingMatches ll n = true
    · rw [if_pos hm] at h
      simp only [Option.some.injEq, Prod.mk.injEq] at h
      obtain ⟨h1, h2⟩ := h
      simp [List.length_cons, ← h1]
    · rw [if_neg hm] at h
      cases hs : findSectionStart ll rest with
      | none => rw [hs] at h; simp at h
      | some p =>
        rw [hs] at h
        simp only [Option.map_some', Option.some.injEq, Prod.mk.injEq] at h
        have := findSectionStart_lt_length ll rest p.1 p.2 (by rw [hs])
        simp only [List.length_cons]
        omega

/-- Splitting a list at indices `i ≤ j` into the middle slice and the outer
slices loses no element. -/
theorem mem_slices {α : Type} (content : List α) (n : α) (i j : Nat) (hij : i ≤ j)
    (hn : n ∈ content) :
    n ∈ (content.drop i).take (j - i) ∨ n ∈ content.take i ++ content.drop j := by
  have h1 : content.take i ++ content.drop i = content := List.take_append_drop i content
  rw [← h1] at hn
  rcases List.mem_append.mp hn with h | h
  · exact Or.inr (List.mem_append.mpr (Or.inl h))
  · have h2 : (content.drop i).take (j - i) ++ (content.drop i).drop (j - i) =
        content.drop i := List.take_append_drop _ _
    have h3 : (content.drop i).drop (j - i) = content.drop j := by
      rw [List.drop_drop]
      congr 1
      omega
    rw [← h2] at h
    rcases List.mem_append.mp h with h' | h'
    · exact Or.inl h'
    · exact Or.inr (List.mem_append.mpr (Or.inr (h3 ▸ h')))

/-- Every node of the input lands unchanged in the extractor's section or
remainder. -/
theorem extractADFSection_mem (content : List ADFNode) (label : String)
    (n : ADFNode) (hn : n ∈ content) :
    n ∈ (extractADFSection content label).1 ∨ n ∈ (extractADFSection content label).2 := by
  unfold extractADFSection
  cases hs : findSectionStart (lowerStr label) content with
  | none => exact Or.inr hn
  | some p =>
    obtain ⟨i, L⟩ := p
    have hi : i < content.length := findSectionStart_lt_length _ _ _ _ hs
    dsimp only
    cases hfe : findSectionEnd L (content.drop (i + 1)) with
    | some d =>
      dsimp only
      exact mem_slices content n i (i + 1 + d) (by omega) hn
    | none =>
      dsimp only
      exact mem_slices content n i content.length (by omega) hn

/-- C9: a node of unrecognized kind occurring anywhere in a section is still
present, unchanged, after section extraction (in the section or the
remainder) and after completion marking; parsing reads the tree without
rebuilding it, so the combination of extract, parse and mutate preserves the
node. -/
theorem unknownNode_preserved (u : ADFNode)
    (hu : u.ntype ∉ recognizedMutationTypes) :
    (∀ content label, OccursInList u content →
      OccursInList u (extractADFSection content label).1 ∨
      OccursInList u (extractADFSection content label).2) ∧
    (∀ S storyId issueKey issueUrl now T,
      addCompletionMarkerToShellStory S storyId issueKey issueUrl now = Except.ok T →
      OccursInList u S → OccursInList u T) := by
  have hu1 : u.ntype ≠ "text" := fun h => hu (by simp [recognizedMutationTypes, h])
  have hu2 : u.ntype ≠ "paragraph" := fun h => hu (by simp [recognizedMutationTypes, h])
  have hu3 : u.ntype ≠ "listItem" := fun h => hu (by simp [recognizedMutationTypes, h])
  have hu4 : u.ntype ≠ "bulletList" := fun h => hu (by simp [recognizedMutationTypes, h])
  constructor
  · rintro content label ⟨n, hn, ho⟩
    rcases extractADFSection_mem content label n hn with h | h
    · exact Or.inl ⟨n, h, ho⟩
    · exact Or.inr ⟨n, h, ho⟩
  · rintro S storyId issueKey issueUrl now T hok ⟨b, hb, ho⟩
    have hT : T = S.map (transformBulletList storyId issueUrl now) := by
      simp only [addCompletionMarkerToShellStory, structuredCloneList_eq_self] at hok
      by_cases hc : sectionContainsStory S storyId = true
      · rw [if_pos hc] at hok
        exact (Except.ok.inj hok).symm
      · rw [if_neg hc] at hok
        simp at hok
    rw [hT]
    exact ⟨transformBulletList storyId issueUrl now b, List.mem_map_of_mem _ hb,
      occursIn_transformBulletList hu1 hu2 hu3 hu4 storyId issueUrl now b ho⟩

/-- C9 witness: the `customPanel` node injected in `unknownSampleSection`
survives extraction of a (here absent) heading and completion marking of
`st001`. -/
theorem unknownNode_preserved_witness :
    (OccursInList unknownSampleNode
        (extractADFSection unknownSampleSection ("Shell Stories")).1 ∨
      OccursInList unknownSampleNode
        (extractADFSection unknownSampleSection ("Shell Stories")).2) ∧
    OccursInList unknownSampleNode
      (unknownSampleSection.map
        (transformBulletList ("st001") ("https://jira.example/browse/P-1")
          ("2025-01-15T10:30:00.000Z"))) := by
  have hocc : OccursInList unknownSampleNode unknownSampleSection := by
    refine ⟨_, List.mem_cons_self _ _, OccursIn.child (c := [ADFNode.mk ("listItem") none none none
      (some [ADFNode.mk ("paragraph") none none none
        (some [ADFNode.mk ("text") none (some [⟨"code", none⟩]) (some ("st001")) none,
               ADFNode.mk ("text") none none (some (" T ")) none,
               ADFNode.mk ("text") none none (some ("⟩ d")) none]),
             unknownSampleNode])]) rfl (List.mem_cons_self _ _) ?_⟩
    exact OccursIn.child (c := [ADFNode.mk ("paragraph") none none none
        (some [ADFNode.mk ("text") none (some [⟨"code", none⟩]) (some ("st001")) none,
               ADFNode.mk ("text") none none (some (" T ")) none,
               ADFNode.mk ("text") none none (some ("⟩ d")) none]),
             unknownSampleNode]) rfl
      (by simp) OccursIn.refl
  have hu : unknownSampleNode.ntype ∉ recognizedMutationTypes := by decide
  refine ⟨(unknownNode_preserved unknownSampleNode hu).1 unknownSampleSection
      ("Shell Stories") hocc, ?_⟩
  exact (unknownNode_preserved unknownSampleNode hu).2 unknownSampleSection
    ("st001") ("P-1") ("https://jira.example/browse/P-1") ("2025-01-15T10:30:00.000Z")
    (unknownSampleSection.map
      (transformBulletList ("st001") ("https://jira.example/browse/P-1")
        ("2025-01-15T10:30:00.000Z")))
    (by rfl) hocc

/-! ## Node-level lemmas for the mutation passes -/

/-- `addLinkToNode` never changes the text. -/
theorem addLinkToNode_text (n : ADFNode) (url : String) :
    (addLinkToNode n url).text = n.text := by
  unfold addLinkToNode
  split
  · split
    · rfl
    · cases n <;> rfl
  · rfl

/-- `addLinkToNode` never changes the type tag. -/
theorem addLinkToNode_ntype (n : ADFNode) (url : String) :
    (addLinkToNode n url).ntype = n.ntype := by
  unfold addLinkToNode
  split
  · split
    · rfl
    · cases n <;> rfl
  · rfl

/-- `addLinkToNode` only adds a `link` mark: queries for other mark types
are unchanged. -/
theorem hasMarkType_addLinkToNode (n : ADFNode) (url mt : String)
    (hmt : (("link" : String) == mt) = false) :
    hasMarkType (addLinkToNode n url) mt = hasMarkType n mt := by
  unfold addLinkToNode
  split
  · split
    · rfl
    · cases n with
      | mk t a m tx c =>
        cases m with
        | none => simp [setMarks, hasMarkType, ADFNode.marks, linkMark, hmt]
        | some ms =>
          simp [setMarks, hasMarkType, ADFNode.marks, linkMark, List.any_append, hmt]
  · rfl

/-- The scan observables are invariant under `addLinkToNode`. -/
theorem scanObs_addLinkToNode (n : ADFNode) (url : String) :
    scanObs (addLinkToNode n url) = scanObs n := by
  simp [scanObs, addLinkToNode_ntype, addLinkToNode_text,
    hasMarkType_addLinkToNode n url ("code") (by decide),
    hasMarkType_addLinkToNode n url ("em") (by decide)]

/-- Overwriting text keeps mark queries. -/
theorem hasMarkType_setText (n : ADFNode) (s mt : String) :
    hasMarkType (setText n s) mt = hasMarkType n mt := by
  cases n; rfl

/-- The text field after an overwrite. -/
theorem setText_text (n : ADFNode) (s : String) : (setText n s).text = some s := by
  cases n; rfl

/-- Overwriting text twice is overwriting once. -/
theorem setText_setText (n : ADFNode) (s s' : String) :
    setText (setText n s) s' = setText n s' := by
  cases n; rfl

/-- Rebuilding content twice keeps the last content. -/
theorem setContent_setContent (n : ADFNode) (c c' : Option (List ADFNode)) :
    setContent (setContent n c) c' = setContent n c' := by
  cases n; rfl

/-- A text node fixed by `addLinkToNode` already carries a link mark. -/
theorem hasLink_of_addLinkToNode_fix (n : ADFNode) (url : String)
    (ht : (n.ntype == "text") = true) (hfix : addLinkToNode n url = n) :
    hasMarkType n ("link") = true := by
  by_contra h
  have h' : hasMarkType n ("link") = false := by simpa using h
  rw [addLinkToNode, if_pos ht, h'] at hfix
  simp only [Bool.false_eq_true, if_false] at hfix
  cases n with
  | mk t a m tx c =>
    cases m with
    | none => simp [setMarks, ADFNode.marks] at hfix
    | some ms =>
      simp only [setMarks, ADFNode.marks, Option.getD_some, ADFNode.mk.injEq] at hfix
      have hlen := congrArg List.length (Option.some.inj hfix.2.2.1)
      simp at hlen

/-- Adding the link mark is idempotent. -/
theorem addLinkToNode_idem (n : ADFNode) (url : String) :
    addLinkToNode (addLinkToNode n url) url = addLinkToNode n url := by
  by_cases ht : (n.ntype == "text") = true
  · by_cases hl : hasMarkType n ("link") = true
    · have hinner : addLinkToNode n url = n := by
        rw [addLinkToNode, if_pos ht, if_pos hl]
      rw [hinner]
      exact hinner
    · have hl' : hasMarkType n ("link") = false := by simpa using hl
      have h1 : addLinkToNode n url =
          setMarks n (some ((n.marks.getD []) ++ [linkMark url])) := by
        rw [addLinkToNode, if_pos ht, hl']
        simp
      rw [h1]
      have h2 : ((setMarks n (some ((n.marks.getD []) ++ [linkMark url]))).ntype
          == "text") = true := by rw [setMarks_ntype]; exact ht
      have h3 : hasMarkType
          (setMarks n (some ((n.marks.getD []) ++ [linkMark url]))) ("link") = true := by
        cases n with
        | mk t a m tx c => simp [setMarks, hasMarkType, ADFNode.marks, linkMark]
      rw [addLinkToNode, if_pos h2, if_pos h3]
  · have ht' : (n.ntype == "text") = false := by simpa using ht
    have hinner : addLinkToNode n url = n := by
      rw [addLinkToNode, ht']
      simp
    rw [hinner]
    exact hinner

/-- The keep-or-link relation is reflexive on any list. -/
theorem forall₂_keep_or_link (url : String) : ∀ l : List ADFNode,
    List.Forall₂ (fun m m' => m' = m ∨ m' = addLinkToNode m url) l l
  | [] => List.Forall₂.nil
  | _ :: rest => List.Forall₂.cons (Or.inl rfl) (forall₂_keep_or_link url rest)

/-- Every list is pointwise related to its image under the title-link pass:
each node is kept or link-marked. -/
theorem addLinkToTitleNodes_pointwise (url : String) : ∀ (b : Bool) (c : List ADFNode),
    List.Forall₂ (fun m m' => m' = m ∨ m' = addLinkToNode m url) c
      (addLinkToTitleNodes url b c)
  | _, [] => List.Forall₂.nil
  | b, x :: rest => by
    rw [addLinkToTitleNodes]
    by_cases h1 : (x.ntype == "text" && hasMarkType x ("code")) = true
    · rw [if_pos h1]
      exact List.Forall₂.cons (Or.inl rfl) (addLinkToTitleNodes_pointwise url true rest)
    · rw [if_neg h1]
      by_cases h2 : (x.ntype == "text" && optTextHasSep x.text) = true
      · rw [if_pos h2]
        exact List.Forall₂.cons (Or.inl rfl) (forall₂_keep_or_link url rest)
      · rw [if_neg h2]
        by_cases h3 : (b && (x.ntype == "text")) = true
        · rw [if_pos h3]
          exact List.Forall₂.cons (Or.inr rfl) (addLinkToTitleNodes_pointwise url b rest)
        · rw [if_neg h3]
          exact List.Forall₂.cons (Or.inl rfl) (addLinkToTitleNodes_pointwise url b rest)

/-- Map a function over both sides of a pointwise relation it respects. -/
theorem map_eq_of_forall₂ {α β : Type} {r : α → α → Prop} {f : α → β}
    (hf : ∀ a b, r a b → f b = f a) :
    ∀ {l₁ l₂ : List α}, List.Forall₂ r l₁ l₂ → l₂.map f = l₁.map f := by
  intro l₁ l₂ h
  induction h with
  | nil => rfl
  | cons hab _ ih => simp [hf _ _ hab, ih]

/-- The title-link pass preserves the scan observables of every position. -/
theorem addLinkToTitleNodes_obs (url : String) (b : Bool) (c : List ADFNode) :
    (addLinkToTitleNodes url b c).map scanObs = c.map scanObs :=
  map_eq_of_forall₂
    (fun a b h => by
      rcases h with rfl | rfl
      · rfl
      · exact scanObs_addLinkToNode a url)
    (addLinkToTitleNodes_pointwise url b c)

/-! ## Idempotence of the two mutation passes -/

/-- The title-link pass is idempotent. -/
theorem addLinkToTitleNodes_idem (url : String) : ∀ (b : Bool) (c : List ADFNode),
    addLinkToTitleNodes url b (addLinkToTitleNodes url b c) =
      addLinkToTitleNodes url b c
  | _, [] => rfl
  | b, x :: rest => by
    rw [addLinkToTitleNodes]
    by_cases h1 : (x.ntype == "text" && hasMarkType x ("code")) = true
    · rw [if_pos h1, addLinkToTitleNodes, if_pos h1, addLinkToTitleNodes_idem url true rest]
    · rw [if_neg h1]
      by_cases h2 : (x.ntype == "text" && optTextHasSep x.text) = true
      · rw [if_pos h2, addLinkToTitleNodes, if_neg h1, if_pos h2]
      · rw [if_neg h2]
        by_cases h3 : (b && (x.ntype == "text")) = true
        · rw [if_pos h3]
          have hx1 : ((addLinkToNode x url).ntype == "text"
              && hasMarkType (addLinkToNode x url) ("code")) = false := by
            rw [addLinkToNode_ntype, hasMarkType_addLinkToNode x url ("code") (by decide)]
            simpa using h1
          have hx2 : ((addLinkToNode x url).ntype == "text"
              && optTextHasSep (addLinkToNode x url).text) = false := by
            rw [addLinkToNode_ntype, addLinkToNode_text]
            simpa using h2
          have hx3 : (b && ((addLinkToNode x url).ntype == "text")) = true := by
            rw [addLinkToNode_ntype]
            exact h3
          rw [addLinkToTitleNodes, if_neg (by simp [hx1]), if_neg (by simp [hx2]),
            if_pos hx3, addLinkToNode_idem, addLinkToTitleNodes_idem url b rest]
        · rw [if_neg h3, addLinkToTitleNodes, if_neg h1, if_neg h2, if_neg h3,
            addLinkToTitleNodes_idem url b rest]

/-- The timestamp node is fixed by re-stamping its text. -/
theorem setText_timestampTextNode (now : String) :
    setText (timestampTextNode now) ("(" ++ now ++ ")") = timestampTextNode now := rfl

/-- The timestamp pass is idempotent. -/
theorem appendOrUpdateTimestamp_idem (now : String) : ∀ c : List ADFNode,
    appendOrUpdateTimestamp now (appendOrUpdateTimestamp now c) =
      appendOrUpdateTimestamp now c
  | [] => rfl
  | x :: rest => by
    by_cases hx : isEmTextNode x = true
    · rw [appendOrUpdateTimestamp, if_pos hx, appendOrUpdateTimestamp,
        if_pos (by rw [isEmTextNode_setText]; exact hx), setText_setText]
    · rw [appendOrUpdateTimestamp, if_neg hx, appendOrUpdateTimestamp, if_neg hx,
        appendOrUpdateTimestamp_idem now rest]

/-- A found element satisfies the search predicate. -/
theorem find?_prop {α : Type} (p : α → Bool) : ∀ (l : List α) (x : α),
    l.find? p = some x → p x = true
  | [], x, h => by simp [List.find?] at h
  | a :: l, x, h => by
    by_cases hp : p a = true
    · rw [List.find?_cons_of_pos _ hp] at h
      obtain rfl := Option.some.inj h
      exact hp
    · have hp' : p a = false := by simpa using hp
      rw [List.find?_cons_of_neg _ (by simp [hp'])] at h
      exact find?_prop p l x h

/-- Decompose a list at its first element satisfying `p`. -/
theorem find?_decomp {α : Type} (p : α → Bool) : ∀ (l : List α) (x : α),
    l.find? p = some x → ∃ pre post, l = pre ++ x :: post ∧ ∀ m ∈ pre, p m = false
  | [], x, h => by simp [List.find?] at h
  | a :: l, x, h => by
    by_cases hp : p a = true
    · rw [List.find?_cons_of_pos _ hp] at h
      obtain rfl := Option.some.inj h
      exact ⟨[], l, rfl, by simp⟩
    · have hp' : p a = false := by simpa using hp
      rw [List.find?_cons_of_neg _ (by simp [hp'])] at h
      obtain ⟨pre, post, rfl, hpre⟩ := find?_decomp p l x h
      refine ⟨a :: pre, post, rfl, ?_⟩
      intro m hm
      rcases List.mem_cons.mp hm with rfl | hm'
      · exact hp'
      · exact hpre m hm'

/-- After the first emphasis-marked node is overwritten with the timestamp
text, a run of the title-link pass that already fixed the paragraph still
fixes it: the overwritten node carries no code mark and neither its old nor
its new text contains the separator glyph, so the scan takes the same
branches. -/
theorem addLinks_fixed_after_overwrite (url now : String)
    (hnow : optTextHasSep (some ("(" ++ now ++ ")")) = false) :
    ∀ (b : Bool) (pre : List ADFNode) (x : ADFNode) (post : List ADFNode),
      isEmTextNode x = true → hasMarkType x ("code") = false →
      optTextHasSep x.text = false →
      addLinkToTitleNodes url b (pre ++ x :: post) = pre ++ x :: post →
      addLinkToTitleNodes url b (pre ++ setText x ("(" ++ now ++ ")") :: post) =
        pre ++ setText x ("(" ++ now ++ ")") :: post
  | b, [], x, post, hem, hcode, hsep, ha => by
    have hxt : (x.ntype == "text") = true := by
      simp only [isEmTextNode, Bool.and_eq_true] at hem
      exact hem.1
    have hx1 : (x.ntype == "text" && hasMarkType x ("code")) = false := by
      simp [hcode]
    have hx2 : (x.ntype == "text" && optTextHasSep x.text) = false := by
      simp [hsep]
    have hs1 : ((setText x ("(" ++ now ++ ")")).ntype == "text"
        && hasMarkType (setText x ("(" ++ now ++ ")")) ("code")) = false := by
      rw [setText_ntype, hasMarkType_setText]
      exact hx1
    have hs2 : ((setText x ("(" ++ now ++ ")")).ntype == "text"
        && optTextHasSep (setText x ("(" ++ now ++ ")")).text) = false := by
      rw [setText_ntype, setText_text, hnow]
      simp
    rw [List.nil_append] at ha ⊢
    rw [addLinkToTitleNodes, if_neg (by simp [hx1]), if_neg (by simp [hx2])] at ha
    rw [addLinkToTitleNodes, if_neg (by simp [hs1]), if_neg (by simp [hs2])]
    by_cases hb : (b && (x.ntype == "text")) = true
    · rw [if_pos hb] at ha
      have hlink := List.cons.injEq _ _ _ _ ▸ ha
      have hfix : addLinkToNode x url = x := (List.cons.inj ha).1
      have hrest : addLinkToTitleNodes url b post = post := (List.cons.inj ha).2
      have hbs : (b && ((setText x ("(" ++ now ++ ")")).ntype == "text")) = true := by
        rw [setText_ntype]
        exact hb
      rw [if_pos hbs, hrest]
      have hL : hasMarkType x ("link") = true := hasLink_of_addLinkToNode_fix x url hxt hfix
      have hLs : hasMarkType (setText x ("(" ++ now ++ ")")) ("link") = true := by
        rw [hasMarkType_setText]
        exact hL
      rw [addLinkToNode, if_pos (by rw [setText_ntype]; exact hxt), if_pos hLs]
    · have hb' : (b && (x.ntype == "text")) = false := by simpa using hb
      rw [hb'] at ha
      simp only [Bool.false_eq_true, if_false] at ha
      have hrest : addLinkToTitleNodes url b post = post := (List.cons.inj ha).2
      have hbs : (b && ((setText x ("(" ++ now ++ ")")).ntype == "text")) = false := by
        rw [setText_ntype]
        exact hb'
      rw [hbs]
      simp only [Bool.false_eq_true, if_false]
      rw [hrest]
  | b, q :: pre, x, post, hem, hcode, hsep, ha => by
    rw [List.cons_append] at ha ⊢
    rw [addLinkToTitleNodes] at ha ⊢
    by_cases h1 : (q.ntype == "text" && hasMarkType q ("code")) = true
    · rw [if_pos h1] at ha ⊢
      have hrest := (List.cons.inj ha).2
      rw [addLinks_fixed_after_overwrite url now hnow true pre x post hem hcode hsep hrest]
    · rw [if_neg h1] at ha ⊢
      by_cases h2 : (q.ntype == "text" && optTextHasSep q.text) = true
      · rw [if_pos h2] at ha ⊢
      · rw [if_neg h2] at ha ⊢
        by_cases h3 : (b && (q.ntype == "text")) = true
        · rw [if_pos h3] at ha ⊢
          have hfix : addLinkToNode q url = q := (List.cons.inj ha).1
          have hrest := (List.cons.inj ha).2
          rw [hfix,
            addLinks_fixed_after_overwrite url now hnow b pre x post hem hcode hsep hrest]
        · rw [if_neg h3] at ha ⊢
          have hrest := (List.cons.inj ha).2
          rw [addLinks_fixed_after_overwrite url now hnow b pre x post hem hcode hsep hrest]

/-- After the space-and-timestamp run is appended, a run of the title-link
pass that already fixed the paragraph still fixes it, provided either a
separator node stops the scan before the appended run or no code-marked
node ever arms the title collection. -/
theorem addLinks_fixed_after_append (url now : String)
    (hnow : optTextHasSep (some ("(" ++ now ++ ")")) = false) :
    ∀ (b : Bool) (m : List ADFNode),
      addLinkToTitleNodes url b m = m →
      (m.any isBreakNode = true ∨ ((∀ n ∈ m, isCodeTextNode n = false) ∧ b = false)) →
      addLinkToTitleNodes url b (m ++ [spaceTextNode, timestampTextNode now]) =
        m ++ [spaceTextNode, timestampTextNode now]
  | b, [], _, hcond => by
    have hb : b = false := by
      rcases hcond with h | ⟨_, h⟩
      · simp at h
      · exact h
    subst hb
    have hts1 : ((timestampTextNode now).ntype == "text"
        && hasMarkType (timestampTextNode now) ("code")) = false := by
      simp [timestampTextNode, hasMarkType, ADFNode.marks, ADFNode.ntype, ADFMark.mtype]
    have hts2 : ((timestampTextNode now).ntype == "text"
        && optTextHasSep (timestampTextNode now).text) = false := by
      rw [show (timestampTextNode now).text = some ("(" ++ now ++ ")") from rfl, hnow]
      simp
    have hsp1 : (spaceTextNode.ntype == "text"
        && hasMarkType spaceTextNode ("code")) = false := by decide
    have hsp2 : (spaceTextNode.ntype == "text"
        && optTextHasSep spaceTextNode.text) = false := by decide
    show addLinkToTitleNodes url false (spaceTextNode :: [timestampTextNode now]) = _
    rw [addLinkToTitleNodes, if_neg (by simp [hsp1]), if_neg (by simp [hsp2]),
      if_neg (by simp)]
    rw [addLinkToTitleNodes, if_neg (by simp [hts1]), if_neg (by simp [hts2]),
      if_neg (by simp)]
    rw [addLinkToTitleNodes]
    rfl
  | b, p :: m', ha, hcond => by
    rw [List.cons_append]
    rw [addLinkToTitleNodes] at ha ⊢
    by_cases h1 : (p.ntype == "text" && hasMarkType p ("code")) = true
    · rw [if_pos h1] at ha ⊢
      have hrest := (List.cons.inj ha).2
      have hbrk : m'.any isBreakNode = true := by
        rcases hcond with h | ⟨hall, _⟩
        · have hp : isBreakNode p = false := by
            simp only [isBreakNode]
            simp only [Bool.and_eq_true] at h1
            simp [h1.2]
          simpa [List.any_cons, hp] using h
        · have := hall p (List.mem_cons_self _ _)
          rw [isCodeTextNode] at this
          rw [this] at h1
          simp at h1
      rw [addLinks_fixed_after_append url now hnow true m' hrest (Or.inl hbrk)]
    · rw [if_neg h1] at ha ⊢
      by_cases h2 : (p.ntype == "text" && optTextHasSep p.text) = true
      · rw [if_pos h2] at ha ⊢
      · rw [if_neg h2] at ha ⊢
        have hpnb : isBreakNode p = false := by
          rw [isBreakNode]
          by_cases hpt : (p.ntype == "text") = true
          · have : optTextHasSep p.text = false := by
              by_contra hc
              exact h2 (by simp [hpt, eq_true_of_ne_false (fun hh => hc hh)])
            simp [this]
          · simp only [Bool.not_eq_true] at hpt
            simp [hpt]
        by_cases h3 : (b && (p.ntype == "text")) = true
        · rw [if_pos h3] at ha ⊢
          have hfix : addLinkToNode p url = p := (List.cons.inj ha).1
          have hrest := (List.cons.inj ha).2
          have hbrk : m'.any isBreakNode = true := by
            rcases hcond with h | ⟨_, hb⟩
            · simpa [List.any_cons, hpnb] using h
            · rw [hb] at h3; simp at h3
          rw [hfix, addLinks_fixed_after_append url now hnow b m' hrest (Or.inl hbrk)]
        · rw [if_neg h3] at ha ⊢
          have hrest := (List.cons.inj ha).2
          have hcond' : m'.any isBreakNode = true ∨
              ((∀ n ∈ m', isCodeTextNode n = false) ∧ b = false) := by
            rcases hcond with h | ⟨hall, hb⟩
            · exact Or.inl (by simpa [List.any_cons, hpnb] using h)
            · exact Or.inr ⟨fun n hn => hall n (List.mem_cons_of_mem _ hn), hb⟩
          rw [addLinks_fixed_after_append url now hnow b m' hrest hcond']

/-! ## Congruence of the scans under equal observables -/

/-- Unpack an equality of scan observables. -/
theorem scanObs_parts {a b : ADFNode} (h : scanObs a = scanObs b) :
    a.ntype = b.ntype ∧ a.text = b.text ∧
      hasMarkType a ("code") = hasMarkType b ("code") ∧
      hasMarkType a ("em") = hasMarkType b ("em") := by
  simpa [scanObs, Prod.ext_iff] using h

/-- `isEmTextNode` only reads the observables. -/
theorem isEmTextNode_congr_obs {a b : ADFNode} (h : scanObs a = scanObs b) :
    isEmTextNode a = isEmTextNode b := by
  obtain ⟨h1, _, _, h4⟩ := scanObs_parts h
  simp [isEmTextNode, h1, h4]

/-- `isCodeTextNode` only reads the observables. -/
theorem isCodeTextNode_congr_obs {a b : ADFNode} (h : scanObs a = scanObs b) :
    isCodeTextNode a = isCodeTextNode b := by
  obtain ⟨h1, _, h3, _⟩ := scanObs_parts h
  simp [isCodeTextNode, h1, h3]

/-- `isBreakNode` only reads the observables. -/
theorem isBreakNode_congr_obs {a b : ADFNode} (h : scanObs a = scanObs b) :
    isBreakNode a = isBreakNode b := by
  obtain ⟨h1, h2, h3, _⟩ := scanObs_parts h
  simp [isBreakNode, h1, h2, h3]

/-- `List.all` is invariant between lists with equal observables, for
predicates reading only observables. -/
theorem all_congr_of_map_obs (p : ADFNode → Bool)
    (hp : ∀ a b, scanObs a = scanObs b → p a = p b) :
    ∀ (c₁ c₂ : List ADFNode), c₁.map scanObs = c₂.map scanObs → c₁.all p = c₂.all p
  | [], [], _ => rfl
  | [], _ :: _, h => by simp at h
  | _ :: _, [], h => by simp at h
  | a :: l₁, b :: l₂, h => by
    simp only [List.map_cons, List.cons.injEq] at h
    rw [List.all_cons, List.all_cons, hp a b h.1,
      all_congr_of_map_obs p hp l₁ l₂ h.2]

/-- `List.any` is invariant between lists with equal observables. -/
theorem any_congr_of_map_obs (p : ADFNode → Bool)
    (hp : ∀ a b, scanObs a = scanObs b → p a = p b) :
    ∀ (c₁ c₂ : List ADFNode), c₁.map scanObs = c₂.map scanObs → c₁.any p = c₂.any p
  | [], [], _ => rfl
  | [], _ :: _, h => by simp at h
  | _ :: _, [], h => by simp at h
  | a :: l₁, b :: l₂, h => by
    simp only [List.map_cons, List.cons.injEq] at h
    rw [List.any_cons, List.any_cons, hp a b h.1,
      any_congr_of_map_obs p hp l₁ l₂ h.2]

/-- `List.find?` finds observation-equal nodes in observation-equal lists. -/
theorem find?_congr_of_map_obs (p : ADFNode → Bool)
    (hp : ∀ a b, scanObs a = scanObs b → p a = p b) :
    ∀ (c₁ c₂ : List ADFNode), c₁.map scanObs = c₂.map scanObs →
      Option.map scanObs (c₁.find? p) = Option.map scanObs (c₂.find? p)
  | [], [], _ => rfl
  | [], _ :: _, h => by simp at h
  | _ :: _, [], h => by simp at h
  | a :: l₁, b :: l₂, h => by
    simp only [List.map_cons, List.cons.injEq] at h
    by_cases hpa : p a = true
    · rw [List.find?_cons_of_pos _ hpa,
        List.find?_cons_of_pos _ (by rw [← hp a b h.1]; exact hpa)]
      simp [h.1]
    · have hpa' : p a = false := by simpa using hpa
      rw [List.find?_cons_of_neg _ (by simp [hpa']),
        List.find?_cons_of_neg _ (by rw [← hp a b h.1]; simp [hpa'])]
      exact find?_congr_of_map_obs p hp l₁ l₂ h.2

/-- Mark-stability of a paragraph only reads the observables. -/
theorem markStableParagraph_congr (c₁ c₂ : List ADFNode)
    (h : c₁.map scanObs = c₂.map scanObs) :
    markStableParagraph c₁ = markStableParagraph c₂ := by
  unfold markStableParagraph
  have hall := all_congr_of_map_obs (fun m => !(isEmTextNode m && hasMarkType m ("code")))
    (fun a b hab => by
      obtain ⟨_, _, h3, _⟩ := scanObs_parts hab
      simp only [isEmTextNode_congr_obs hab, h3]) c₁ c₂ h
  have hfind := find?_congr_of_map_obs isEmTextNode
    (fun a b hab => isEmTextNode_congr_obs hab) c₁ c₂ h
  have hany := any_congr_of_map_obs isBreakNode
    (fun a b hab => isBreakNode_congr_obs hab) c₁ c₂ h
  have hallc := all_congr_of_map_obs (fun m => !(isCodeTextNode m))
    (fun a b hab => by simp only [isCodeTextNode_congr_obs hab]) c₁ c₂ h
  rw [hall]
  cases hf1 : c₁.find? isEmTextNode with
  | none =>
    cases hf2 : c₂.find? isEmTextNode with
    | none => rw [hany, hallc]
    | some y => rw [hf1, hf2] at hfind; simp at hfind
  | some x =>
    cases hf2 : c₂.find? isEmTextNode with
    | none => rw [hf1, hf2] at hfind; simp at hfind
    | some y =>
      rw [hf1, hf2] at hfind
      simp only [Option.map_some', Option.some.injEq] at hfind
      obtain ⟨_, ht, _, _⟩ := scanObs_parts hfind
      dsimp only
      rw [ht]

/-- The composite paragraph mutation (link pass then timestamp pass) is
idempotent on mark-stable paragraph content. -/
theorem paragraphContentTransform_idem (url now : String)
    (hnow : optTextHasSep (some ("(" ++ now ++ ")")) = false)
    (c : List ADFNode) (hok : markStableParagraph c = true) :
    appendOrUpdateTimestamp now (addLinkToTitleNodes url false
      (appendOrUpdateTimestamp now (addLinkToTitleNodes url false c))) =
    appendOrUpdateTimestamp now (addLinkToTitleNodes url false c) := by
  set m := addLinkToTitleNodes url false c with hm
  have hA : addLinkToTitleNodes url false m = m := by
    rw [hm]
    exact addLinkToTitleNodes_idem url false c
  have hobs : m.map scanObs = c.map scanObs := addLinkToTitleNodes_obs url false c
  have hok' : markStableParagraph m = true := by
    rw [markStableParagraph_congr m c hobs]
    exact hok
  cases hfe : m.find? isEmTextNode with
  | none =>
    have hnoem : ∀ n ∈ m, isEmTextNode n = false := by
      intro n hn
      simpa using List.find?_eq_none.mp hfe n hn
    have happ : appendOrUpdateTimestamp now m =
        m ++ [spaceTextNode, timestampTextNode now] :=
      appendTimestamp_of_noEm now m hnoem
    have hcond : m.any isBreakNode = true ∨
        ((∀ n ∈ m, isCodeTextNode n = false) ∧ false = false) := by
      have h2 := hok'
      unfold markStableParagraph at h2
      rw [hfe] at h2
      simp only [Bool.and_eq_true, Bool.or_eq_true] at h2
      rcases h2.2 with h | h
      · exact Or.inl h
      · refine Or.inr ⟨?_, rfl⟩
        intro n hn
        simpa using List.all_eq_true.mp h n hn
    rw [happ, addLinks_fixed_after_append url now hnow false m hA hcond, ← happ,
      appendOrUpdateTimestamp_idem]
  | some x =>
    have hx : isEmTextNode x = true := List.find?_some hfe
    obtain ⟨pre, post, hdec, hpre⟩ := find?_decomp isEmTextNode m x hfe
    have hcode : hasMarkType x ("code") = false := by
      have h2 := hok'
      unfold markStableParagraph at h2
      simp only [Bool.and_eq_true] at h2
      have hmem : x ∈ m := by
        rw [hdec]
        exact List.mem_append_right _ (List.mem_cons_self _ _)
      have h3 := List.all_eq_true.mp h2.1 x hmem
      simp only [Bool.not_eq_eq_eq_not, Bool.not_true, Bool.and_eq_false_iff] at h3
      rcases h3 with h3 | h3
      · rw [hx] at h3; simp at h3
      · exact h3
    have hsep : optTextHasSep x.text = false := by
      have h2 := hok'
      unfold markStableParagraph at h2
      rw [hfe] at h2
      simp only [Bool.and_eq_true] at h2
      simpa using h2.2
    have hpre' : ∀ n ∈ pre, isEmTextNode n = false := hpre
    have happ : appendOrUpdateTimestamp now m =
        pre ++ setText x ("(" ++ now ++ ")") :: post := by
      rw [hdec]
      exact appendTimestamp_overwrite now pre x post hpre' hx
    have hA' : addLinkToTitleNodes url false (pre ++ x :: post) = pre ++ x :: post := by
      rw [← hdec]
      exact hA
    rw [happ,
      addLinks_fixed_after_overwrite url now hnow false pre x post hx hcode hsep hA',
      ← happ, appendOrUpdateTimestamp_idem]

/-! ## Stability of the id scan under the mutation passes -/

/-- `isStoryIdNode` only reads the observables. -/
theorem isStoryIdNode_congr_obs {a b : ADFNode} (h : scanObs a = scanObs b) :
    isStoryIdNode a = isStoryIdNode b := by
  obtain ⟨h1, h2, h3, _⟩ := scanObs_parts h
  simp [isStoryIdNode, h1, h2, h3]

/-- `IdScanEquiv` is reflexive on any list. -/
theorem forall₂_idScanEquiv_refl : ∀ l : List ADFNode, List.Forall₂ IdScanEquiv l l
  | [] => List.Forall₂.nil
  | _ :: rest => List.Forall₂.cons ⟨rfl, fun _ => rfl⟩ (forall₂_idScanEquiv_refl rest)

/-- Concatenate two pointwise relations. -/
theorem forall₂_append_both {α : Type} {r : α → α → Prop} :
    ∀ {l₁ l₁' l₂ l₂' : List α}, List.Forall₂ r l₁ l₁' → List.Forall₂ r l₂ l₂' →
      List.Forall₂ r (l₁ ++ l₂) (l₁' ++ l₂')
  | [], [], _, _, List.Forall₂.nil, h₂ => h₂
  | _ :: _, _ :: _, _, _, List.Forall₂.cons hab h₁, h₂ =>
    List.Forall₂.cons hab (forall₂_append_both h₁ h₂)

/-- Lists with equal observables are id-scan equivalent. -/
theorem forall₂_idScanEquiv_of_obs : ∀ (l₁ l₂ : List ADFNode),
    l₁.map scanObs = l₂.map scanObs → List.Forall₂ IdScanEquiv l₁ l₂
  | [], [], _ => List.Forall₂.nil
  | [], _ :: _, h => by simp at h
  | _ :: _, [], h => by simp at h
  | a :: l₁, b :: l₂, h => by
    simp only [List.map_cons, List.cons.injEq] at h
    exact List.Forall₂.cons
      ⟨isStoryIdNode_congr_obs h.1, fun _ => (scanObs_parts h.1).2.1⟩
      (forall₂_idScanEquiv_of_obs l₁ l₂ h.2)

/-- The id scan is invariant across id-scan equivalent lists. -/
theorem extractStoryIdAux_congr : ∀ (l₁ l₂ : List ADFNode),
    List.Forall₂ IdScanEquiv l₁ l₂ → extractStoryIdAux l₁ = extractStoryIdAux l₂
  | [], [], _ => rfl
  | [], _ :: _, h => nomatch h
  | _ :: _, [], h => nomatch h
  | a :: l₁, b :: l₂, h => by
    rcases List.forall₂_cons.mp h with ⟨⟨h1, h2⟩, hrest⟩
    rw [extractStoryIdAux, extractStoryIdAux]
    by_cases hp : isStoryIdNode a = true
    · rw [if_pos hp, if_pos (h1 ▸ hp)]
      exact h2 hp
    · have hp' : isStoryIdNode a = false := by simpa using hp
      rw [if_neg (by simp [hp']), if_neg (by rw [← h1]; simp [hp'])]
      exact extractStoryIdAux_congr l₁ l₂ hrest

/-- Appending two non-id nodes does not change the id scan. -/
theorem extractStoryIdAux_append (u v : ADFNode) (hu : isStoryIdNode u = false)
    (hv : isStoryIdNode v = false) : ∀ m : List ADFNode,
    extractStoryIdAux (m ++ [u, v]) = extractStoryIdAux m
  | [] => by simp [extractStoryIdAux, hu, hv]
  | a :: m => by
    rw [List.cons_append, extractStoryIdAux, extractStoryIdAux]
    by_cases hp : isStoryIdNode a = true
    · rw [if_pos hp, if_pos hp]
    · rw [if_neg hp, if_neg hp, extractStoryIdAux_append u v hu hv m]

/-- The space node carries no id. -/
theorem isStoryIdNode_spaceTextNode : isStoryIdNode spaceTextNode = false := by decide

/-- The timestamp node carries no id (it has no code mark). -/
theorem isStoryIdNode_timestampTextNode (now : String) :
    isStoryIdNode (timestampTextNode now) = false := by
  simp [isStoryIdNode, timestampTextNode, hasMarkType, ADFNode.marks, ADFNode.ntype,
    ADFMark.mtype]

/-- The id scan is unchanged by the composite paragraph mutation, as long
as no node carries both the emphasis and the code mark. -/
theorem extractStoryIdAux_transform (url now : String) (c : List ADFNode)
    (h1 : (c.all fun m => !(isEmTextNode m && hasMarkType m ("code"))) = true) :
    extractStoryIdAux (appendOrUpdateTimestamp now (addLinkToTitleNodes url false c)) =
      extractStoryIdAux c := by
  set m := addLinkToTitleNodes url false c with hm
  have hobs : m.map scanObs = c.map scanObs := addLinkToTitleNodes_obs url false c
  have hmc : extractStoryIdAux m = extractStoryIdAux c :=
    extractStoryIdAux_congr m c (forall₂_idScanEquiv_of_obs m c hobs)
  have h1m : (m.all fun x => !(isEmTextNode x && hasMarkType x ("code"))) = true := by
    rw [all_congr_of_map_obs _ (fun a b hab => by
      obtain ⟨_, _, h3, _⟩ := scanObs_parts hab
      simp only [isEmTextNode_congr_obs hab, h3]) m c hobs]
    exact h1
  cases hfe : m.find? isEmTextNode with
  | none =>
    have hnoem : ∀ n ∈ m, isEmTextNode n = false := by
      intro n hn
      simpa using List.find?_eq_none.mp hfe n hn
    rw [appendTimestamp_of_noEm now m hnoem,
      extractStoryIdAux_append _ _ isStoryIdNode_spaceTextNode
        (isStoryIdNode_timestampTextNode now) m, hmc]
  | some x =>
    have hx : isEmTextNode x = true := List.find?_some hfe
    obtain ⟨pre, post, hdec, hpre⟩ := find?_decomp isEmTextNode m x hfe
    have hxcode : hasMarkType x ("code") = false := by
      have hmem : x ∈ m := by
        rw [hdec]
        exact List.mem_append_right _ (List.mem_cons_self _ _)
      have h3 := List.all_eq_true.mp h1m x hmem
      simp only [Bool.not_eq_eq_eq_not, Bool.not_true, Bool.and_eq_false_iff] at h3
      rcases h3 with h3 | h3
      · rw [hx] at h3; simp at h3
      · exact h3
    have hxid : isStoryIdNode x = false := by
      simp [isStoryIdNode, hxcode]
    have hsid : isStoryIdNode (setText x ("(" ++ now ++ ")")) = false := by
      simp only [isStoryIdNode, setText_ntype, hasMarkType_setText, hxcode]
      simp
    have happ : appendOrUpdateTimestamp now m =
        pre ++ setText x ("(" ++ now ++ ")") :: post := by
      rw [hdec]
      exact appendTimestamp_overwrite now pre x post hpre hx
    rw [happ, ← hmc, hdec]
    exact extractStoryIdAux_congr _ _
      (forall₂_append_both (forall₂_idScanEquiv_refl pre)
        (List.Forall₂.cons ⟨by rw [hsid, hxid], fun h => by rw [hsid] at h; cases h⟩
          (forall₂_idScanEquiv_refl post)))

/-! ## Idempotence of the node transformations -/

/-- The paragraph transformation keeps the type tag. -/
theorem transformParagraph_ntype (url now : String) (p : ADFNode) :
    (transformParagraph url now p).ntype = p.ntype := by
  unfold transformParagraph
  by_cases hp : (p.ntype == "paragraph") = true
  · rw [if_pos hp]
    cases hc : p.content with
    | none => rfl
    | some c => rw [setContent_ntype]
  · rw [if_neg hp]

/-- The paragraph transformation is idempotent on mark-stable paragraphs. -/
theorem transformParagraph_idem (url now : String) (p : ADFNode)
    (hnow : optTextHasSep (some ("(" ++ now ++ ")")) = false)
    (hok : (p.ntype == "paragraph") = true → ∀ c, p.content = some c →
      markStableParagraph c = true) :
    transformParagraph url now (transformParagraph url now p) =
      transformParagraph url now p := by
  by_cases hp : (p.ntype == "paragraph") = true
  · cases hc : p.content with
    | none =>
      have hfix : transformParagraph url now p = p := by
        unfold transformParagraph
        rw [if_pos hp, hc]
      rw [hfix, hfix]
    | some c =>
      have h1 : transformParagraph url now p = setContent p
          (some (appendOrUpdateTimestamp now (addLinkToTitleNodes url false c))) := by
        unfold transformParagraph
        rw [if_pos hp, hc]
      rw [h1]
      unfold transformParagraph
      rw [if_pos (by rw [setContent_ntype]; exact hp), setContent_content]
      dsimp only
      rw [setContent_setContent,
        paragraphContentTransform_idem url now hnow c (hok hp c hc)]
  · have hfix : transformParagraph url now p = p := by
      unfold transformParagraph
      rw [if_neg hp]
    rw [hfix, hfix]

/-- The list-item transformation keeps the type tag. -/
theorem transformListItem_ntype (storyId url now : String) (li : ADFNode) :
    (transformListItem storyId url now li).ntype = li.ntype := by
  unfold transformListItem
  by_cases hli : (li.ntype == "listItem") = true
  · rw [if_pos hli]
    cases hc : li.content with
    | none => rfl
    | some lc =>
      dsimp only
      by_cases hid : (extractStoryId lc == some storyId) = true
      · rw [if_pos hid, setContent_ntype]
      · rw [if_neg hid]
  · rw [if_neg hli]

/-- The id of a list item is unchanged by the paragraph transformations,
as long as the first paragraph has no em-and-code node. -/
theorem extractStoryId_map_transform (url now : String) (lc : List ADFNode)
    (hok : ∀ p, lc.find? (fun n => n.ntype == "paragraph") = some p →
      ∀ c, p.content = some c →
        (c.all fun m => !(isEmTextNode m && hasMarkType m ("code"))) = true) :
    extractStoryId (lc.map (transformParagraph url now)) = extractStoryId lc := by
  unfold extractStoryId
  rw [List.find?_map]
  have hpred : (fun n => n.ntype == "paragraph") ∘ (transformParagraph url now) =
      fun n => n.ntype == "paragraph" :=
    funext fun x => by simp [Function.comp, transformParagraph_ntype]
  rw [hpred]
  cases hf : lc.find? (fun n => n.ntype == "paragraph") with
  | none => rfl
  | some p =>
    have hpt : (p.ntype == "paragraph") = true := find?_prop _ lc p hf
    simp only [Option.map_some']
    cases hc : p.content with
    | none =>
      have : transformParagraph url now p = p := by
        unfold transformParagraph
        rw [if_pos hpt, hc]
      rw [this, hc]
    | some c =>
      have h1 : transformParagraph url now p = setContent p
          (some (appendOrUpdateTimestamp now (addLinkToTitleNodes url false c))) := by
        unfold transformParagraph
        rw [if_pos hpt, hc]
      rw [h1, setContent_content]
      dsimp only
      exact extractStoryIdAux_transform url now c (hok p hf c hc)

/-- The list-item transformation is idempotent on mark-stable items. -/
theorem transformListItem_idem (storyId url now : String) (li : ADFNode)
    (hnow : optTextHasSep (some ("(" ++ now ++ ")")) = false)
    (hok : ∀ lc, li.content = some lc → (extractStoryId lc == some storyId) = true →
      ∀ p ∈ lc, (p.ntype == "paragraph") = true → ∀ c, p.content = some c →
        markStableParagraph c = true) :
    transformListItem storyId url now (transformListItem storyId url now li) =
      transformListItem storyId url now li := by
  by_cases hli : (li.ntype == "listItem") = true
  · cases hc : li.content with
    | none =>
      have hfix : transformListItem storyId url now li = li := by
        unfold transformListItem
        rw [if_pos hli, hc]
      rw [hfix, hfix]
    | some lc =>
      by_cases hid : (extractStoryId lc == some storyId) = true
      · have h1 : transformListItem storyId url now li =
            setContent li (some (lc.map (transformParagraph url now))) := by
          unfold transformListItem
          rw [if_pos hli, hc]
          dsimp only
          rw [if_pos hid]
        rw [h1]
        have hfirst : ∀ p, lc.find? (fun n => n.ntype == "paragraph") = some p →
            ∀ c, p.content = some c →
              (c.all fun m => !(isEmTextNode m && hasMarkType m ("code"))) = true := by
          intro p hf c hpc
          have hpt : (p.ntype == "paragraph") = true := find?_prop _ lc p hf
          have hmem : p ∈ lc := List.mem_of_find?_eq_some hf
          have := hok lc hc hid p hmem hpt c hpc
          unfold markStableParagraph at this
          rw [Bool.and_eq_true] at this
          exact this.1
        have hid2 : (extractStoryId (lc.map (transformParagraph url now))
            == some storyId) = true := by
          rw [extractStoryId_map_transform url now lc hfirst]
          exact hid
        unfold transformListItem
        rw [if_pos (by rw [setContent_ntype]; exact hli), setContent_content]
        dsimp only
        rw [if_pos hid2, setContent_setContent]
        congr 1
        rw [List.map_map]
        apply congrArg
        apply List.map_congr_left
        intro p hp
        simp only [Function.comp]
        by_cases hpt : (p.ntype == "paragraph") = true
        · exact transformParagraph_idem url now p hnow
            (fun _ c hpc => hok lc hc hid p hp hpt c hpc)
        · exact transformParagraph_idem url now p hnow
            (fun h _ _ => absurd h hpt)
      · have hfix : transformListItem storyId url now li = li := by
          unfold transformListItem
          rw [if_pos hli, hc]
          dsimp only
          rw [if_neg hid]
        rw [hfix, hfix]
  · have hfix : transformListItem storyId url now li = li := by
      unfold transformListItem
      rw [if_neg hli]
    rw [hfix, hfix]

/-! ## Claim C1: idempotence of completion marking -/

/-- `List.any` respects pointwise equal predicates. -/
theorem any_congr_mem {α : Type} (p q : α → Bool) : ∀ l : List α,
    (∀ a ∈ l, p a = q a) → l.any p = l.any q
  | [], _ => rfl
  | a :: l, h => by
    rw [List.any_cons, List.any_cons, h a (List.mem_cons_self _ _),
      any_congr_mem p q l fun x hx => h x (List.mem_cons_of_mem _ hx)]

/-- Unfold the section-level well-formedness down to one paragraph. -/
theorem markStableSection_spec (S : List ADFNode) (storyId : String)
    (h : markStableSection S storyId = true) :
    ∀ b ∈ S, (b.ntype == "bulletList") = true → ∀ bc, b.content = some bc →
      ∀ li ∈ bc, (li.ntype == "listItem") = true → ∀ lc, li.content = some lc →
        (extractStoryId lc == some storyId) = true →
        ∀ p ∈ lc, (p.ntype == "paragraph") = true → ∀ c, p.content = some c →
          markStableParagraph c = true := by
  intro b hb hbt bc hbc li hli hlit lc hlc hid p hp hpt c hpc
  have h1 := List.all_eq_true.mp h b hb
  simp only [hbt, Bool.not_true, Bool.false_or] at h1
  rw [hbc] at h1
  simp only at h1
  have h2 := List.all_eq_true.mp h1 li hli
  simp only [hlit, Bool.not_true, Bool.false_or] at h2
  rw [hlc] at h2
  simp only at h2
  simp only [hid, Bool.not_true, Bool.false_or] at h2
  have h3 := List.all_eq_true.mp h2 p hp
  simp only [hpt, Bool.not_true, Bool.false_or] at h3
  rw [hpc] at h3
  simpa using h3

/-- The bullet-list transformation is idempotent on mark-stable lists. -/
theorem transformBulletList_idem (storyId url now : String) (b : ADFNode)
    (hnow : optTextHasSep (some ("(" ++ now ++ ")")) = false)
    (hok : ∀ bc, b.content = some bc →
      ∀ li ∈ bc, (li.ntype == "listItem") = true → ∀ lc, li.content = some lc →
        (extractStoryId lc == some storyId) = true →
        ∀ p ∈ lc, (p.ntype == "paragraph") = true → ∀ c, p.content = some c →
          markStableParagraph c = true) :
    transformBulletList storyId url now (transformBulletList storyId url now b) =
      transformBulletList storyId url now b := by
  by_cases hb : (b.ntype == "bulletList") = true
  · cases hc : b.content with
    | none =>
      have hfix : transformBulletList storyId url now b = b := by
        unfold transformBulletList
        rw [if_pos hb, hc]
      rw [hfix, hfix]
    | some bc =>
      have h1 : transformBulletList storyId url now b =
          setContent b (some (bc.map (transformListItem storyId url now))) := by
        unfold transformBulletList
        rw [if_pos hb, hc]
      rw [h1]
      unfold transformBulletList
      rw [if_pos (by rw [setContent_ntype]; exact hb), setContent_content]
      dsimp only
      rw [setContent_setContent]
      congr 1
      rw [List.map_map]
      apply congrArg
      apply List.map_congr_left
      intro li hli
      simp only [Function.comp]
      by_cases hlit : (li.ntype == "listItem") = true
      · exact transformListItem_idem storyId url now li hnow
          (fun lc hlc hid p hp hpt c hpc => hok bc hc li hli hlit lc hlc hid p hp hpt c hpc)
      · have hfix : transformListItem storyId url now li = li := by
          unfold transformListItem
          rw [if_neg hlit]
        rw [hfix, hfix]
  · have hfix : transformBulletList storyId url now b = b := by
      unfold transformBulletList
      rw [if_neg hb]
    rw [hfix, hfix]

/-- The story lookup flag is unchanged by the completion transformation on
a mark-stable section. -/
theorem sectionContainsStory_map_transform (S : List ADFNode) (storyId url now : String)
    (hwf : markStableSection S storyId = true) :
    sectionContainsStory (S.map (transformBulletList storyId url now)) storyId =
      sectionContainsStory S storyId := by
  unfold sectionContainsStory
  rw [List.any_map]
  apply any_congr_mem
  intro b hb
  simp only [Function.comp]
  by_cases hbt : (b.ntype == "bulletList") = true
  · cases hbc : b.content with
    | none =>
      have hfix : transformBulletList storyId url now b = b := by
        unfold transformBulletList
        rw [if_pos hbt, hbc]
      rw [hfix, hbc]
    | some bc =>
      have h1 : transformBulletList storyId url now b =
          setContent b (some (bc.map (transformListItem storyId url now))) := by
        unfold transformBulletList
        rw [if_pos hbt, hbc]
      rw [h1, setContent_ntype, setContent_content, hbt]
      simp only [Bool.true_and]
      rw [List.any_map]
      apply any_congr_mem
      intro li hli
      simp only [Function.comp]
      by_cases hlit : (li.ntype == "listItem") = true
      · cases hlc : li.content with
        | none =>
          have hfix : transformListItem storyId url now li = li := by
            unfold transformListItem
            rw [if_pos hlit, hlc]
          rw [hfix, hlc]
        | some lc =>
          by_cases hid : (extractStoryId lc == some storyId) = true
          · have h2 : transformListItem storyId url now li =
                setContent li (some (lc.map (transformParagraph url now))) := by
              unfold transformListItem
              rw [if_pos hlit, hlc]
              dsimp only
              rw [if_pos hid]
            rw [h2, setContent_ntype, setContent_content, hlit]
            simp only [Bool.true_and]
            have hfirst : ∀ p, lc.find? (fun n => n.ntype == "paragraph") = some p →
                ∀ c, p.content = some c →
                  (c.all fun m => !(isEmTextNode m && hasMarkType m ("code"))) = true := by
              intro p hf c hpc
              have hpt : (p.ntype == "paragraph") = true := find?_prop _ lc p hf
              have hmem : p ∈ lc := List.mem_of_find?_eq_some hf
              have := markStableSection_spec S storyId hwf b hb hbt bc hbc li hli hlit
                lc hlc hid p hmem hpt c hpc
              unfold markStableParagraph at this
              rw [Bool.and_eq_true] at this
              exact this.1
            rw [extractStoryId_map_transform url now lc hfirst]
          · have hfix : transformListItem storyId url now li = li := by
              unfold transformListItem
              rw [if_pos hlit, hlc]
              dsimp only
              rw [if_neg hid]
            rw [hfix, hlc]
      · have hfix : transformListItem storyId url now li = li := by
          unfold transformListItem
          rw [if_neg hlit]
        rw [hfix]
  · have hfix : transformBulletList storyId url now b = b := by
      unfold transformBulletList
      rw [if_neg hbt]
    rw [hfix]

/-- C1: completion marking is idempotent.  On a mark-stable section
containing the story (both calls observing the same current time, whose
rendering contains no separator glyph), marking a second time returns the
same tree the first marking produced. -/
theorem markCompleted_idempotent (S : List ADFNode)
    (storyId issueKey issueUrl now : String) (T : List ADFNode)
    (hwf : markStableSection S storyId = true)
    (hnow : optTextHasSep (some ("(" ++ now ++ ")")) = false)
    (hok : addCompletionMarkerToShellStory S storyId issueKey issueUrl now = .ok T) :
    addCompletionMarkerToShellStory T storyId issueKey issueUrl now = .ok T := by
  have hfound : sectionContainsStory S storyId = true ∧
      T = S.map (transformBulletList storyId issueUrl now) := by
    simp only [addCompletionMarkerToShellStory, structuredCloneList_eq_self] at hok
    by_cases hc : sectionContainsStory S storyId = true
    · rw [if_pos hc] at hok
      exact ⟨hc, (Except.ok.inj hok).symm⟩
    · rw [if_neg hc] at hok
      simp at hok
  obtain ⟨hc, hT⟩ := hfound
  have hcontT : sectionContainsStory T storyId = true := by
    rw [hT, sectionContainsStory_map_transform S storyId issueUrl now hwf]
    exact hc
  have hmap : T.map (transformBulletList storyId issueUrl now) = T := by
    rw [hT, List.map_map]
    apply List.map_congr_left
    intro b hb
    simp only [Function.comp]
    by_cases hbt : (b.ntype == "bulletList") = true
    · exact transformBulletList_idem storyId issueUrl now b hnow
        (fun bc hbc li hli hlit lc hlc hid p hp hpt c hpc =>
          markStableSection_spec S storyId hwf b hb hbt bc hbc li hli hlit
            lc hlc hid p hp hpt c hpc)
    · have hfix : transformBulletList storyId issueUrl now b = b := by
        unfold transformBulletList
        rw [if_neg hbt]
      rw [hfix, hfix]
  simp only [addCompletionMarkerToShellStory, structuredCloneList_eq_self, hcontT,
    if_true, hmap]

/-- C1 witness: marking `st001` in a concrete two-story section twice
yields the same tree as marking it once. -/
theorem markCompleted_idempotent_witness :
    addCompletionMarkerToShellStory
        (unknownSampleSection.map
          (transformBulletList ("st001") ("https://jira.example/browse/P-1")
            ("2025-01-15T10:30:00.000Z")))
        ("st001") ("P-1") ("https://jira.example/browse/P-1")
        ("2025-01-15T10:30:00.000Z") =
      .ok (unknownSampleSection.map
        (transformBulletList ("st001") ("https://jira.example/browse/P-1")
          ("2025-01-15T10:30:00.000Z"))) :=
  markCompleted_idempotent unknownSampleSection ("st001") ("P-1")
    ("https://jira.example/browse/P-1") ("2025-01-15T10:30:00.000Z")
    (unknownSampleSection.map
      (transformBulletList ("st001") ("https://jira.example/browse/P-1")
        ("2025-01-15T10:30:00.000Z")))
    (by decide) (by decide) (by rfl)

/-! ## Claim C2: the parse round-trip of the completion mutator -/

/-- Trimming ignores a trailing appended space (the shape produced by the
description scan on the appended timestamp run). -/
theorem jsTrim_append_space (t : String) : jsTrim (t ++ " " ++ "") = jsTrim t := by
  have hdata : (t ++ " " ++ "").data = t.data ++ [' '] := by
    simp [String.data_append]
  unfold jsTrim
  rw [hdata, List.dropWhile_append]
  cases hd : t.data.dropWhile Char.isWhitespace with
  | nil => simp
  | cons a l =>
    simp only [List.isEmpty_cons, if_false, Bool.false_eq_true]
    rw [List.reverse_append]
    simp [List.dropWhile_cons]

/-- `find?` skips a prefix of non-matching elements. -/
theorem find?_append_none {α : Type} (p : α → Bool) :
    ∀ (l : List α), (∀ m ∈ l, p m = false) → ∀ r, (l ++ r).find? p = r.find? p
  | [], _, r => rfl
  | a :: l, h, r => by
    rw [List.cons_append,
      List.find?_cons_of_neg _ (by simp [h a (List.mem_cons_self _ _)]),
      find?_append_none p l (fun m hm => h m (List.mem_cons_of_mem _ hm)) r]

/-- `find?` commutes with a map that preserves the predicate. -/
theorem find?_map_congr {α : Type} (f : α → α) (p : α → Bool) :
    ∀ l : List α, (∀ n ∈ l, p (f n) = p n) →
      (l.map f).find? p = (l.find? p).map f
  | [], _ => rfl
  | a :: l, h => by
    by_cases hpa : p a = true
    · rw [List.map_cons,
        List.find?_cons_of_pos _ (by rw [h a (List.mem_cons_self _ _)]; exact hpa),
        List.find?_cons_of_pos _ hpa, Option.map_some']
    · have hpa' : p a = false := by simpa using hpa
      rw [List.map_cons,
        List.find?_cons_of_neg _ (by simp [h a (List.mem_cons_self _ _), hpa']),
        List.find?_cons_of_neg _ (by simp [hpa']),
        find?_map_congr f p l (fun n hn => h n (List.mem_cons_of_mem _ hn))]

/-- The timestamp pass walks past an emphasis-free prefix unchanged. -/
theorem appendTimestamp_append_noEm (now : String) :
    ∀ l : List ADFNode, (∀ m ∈ l, isEmTextNode m = false) → ∀ r,
      appendOrUpdateTimestamp now (l ++ r) = l ++ appendOrUpdateTimestamp now r
  | [], _, r => rfl
  | n :: l, h, r => by
    rw [List.cons_append, appendOrUpdateTimestamp,
      if_neg (by simp [h n (List.mem_cons_self _ _)]),
      appendTimestamp_append_noEm now l (fun m hm => h m (List.mem_cons_of_mem _ hm)) r,
      List.cons_append]

/-- Pointwise equal observables transport emphasis-freeness. -/
theorem forall₂_obs_no_em :
    ∀ {d d' : List ADFNode}, List.Forall₂ (fun m m' => scanObs m = scanObs m') d d' →
      (∀ m ∈ d, isEmTextNode m = false) → ∀ m' ∈ d', isEmTextNode m' = false := by
  intro d d' h
  induction h with
  | nil => intro _ m' hm'; exact absurd hm' (List.not_mem_nil m')
  | cons hab _ ih =>
    intro hd m' hm'
    rcases List.mem_cons.mp hm' with rfl | hm''
    · rw [← isEmTextNode_congr_obs hab]
      exact hd _ (List.mem_cons_self _ _)
    · exact ih (fun m hm => hd m (List.mem_cons_of_mem _ hm)) m' hm''

/-- The title-link pass on a paragraph whose separator node is reached after
a break-free prefix: the prefix is rewritten observation-equally and the
separator node with everything after it is kept verbatim. -/
theorem addLinks_break_decomp (url : String) : ∀ (b : Bool) (d : List ADFNode),
    (∀ m ∈ d, isBreakNode m = false) → ∀ (br : ADFNode), isBreakNode br = true →
    ∀ r, ∃ d', addLinkToTitleNodes url b (d ++ br :: r) = d' ++ br :: r ∧
      List.Forall₂ (fun m m' => scanObs m = scanObs m') d d'
  | b, [], _, br, hbr, r => by
    have h0 := hbr
    simp only [isBreakNode, Bool.and_eq_true, Bool.not_eq_true'] at h0
    obtain ⟨⟨hbt, hbc⟩, hbs⟩ := h0
    refine ⟨[], ?_, List.Forall₂.nil⟩
    rw [List.nil_append, addLinkToTitleNodes, if_neg (by simp [hbc]),
      if_pos (by simp [hbt, hbs])]
  | b, m :: d, h, br, hbr, r => by
    have hm := h m (List.mem_cons_self _ _)
    have hd := fun x hx => h x (List.mem_cons_of_mem _ hx)
    rw [List.cons_append, addLinkToTitleNodes]
    by_cases c1 : (m.ntype == "text" && hasMarkType m ("code")) = true
    · rw [if_pos c1]
      obtain ⟨d', heq, hrel⟩ := addLinks_break_decomp url true d hd br hbr r
      exact ⟨m :: d', by rw [heq, List.cons_append], List.Forall₂.cons rfl hrel⟩
    · rw [if_neg c1]
      by_cases c2 : (m.ntype == "text" && optTextHasSep m.text) = true
      · exfalso
        rw [Bool.and_eq_true] at c2
        have : isBreakNode m = true := by
          simp only [isBreakNode, c2.1, c2.2, Bool.and_eq_true, Bool.not_eq_true',
            true_and, and_true]
          cases hcm : hasMarkType m ("code") with
          | false => rfl
          | true => exact absurd (by simp [c2.1, hcm]) c1
        rw [this] at hm
        exact Bool.noConfusion hm
      · rw [if_neg c2]
        by_cases c3 : (b && (m.ntype == "text")) = true
        · rw [if_pos c3]
          obtain ⟨d', heq, hrel⟩ := addLinks_break_decomp url b d hd br hbr r
          exact ⟨addLinkToNode m url :: d', by rw [heq, List.cons_append],
            List.Forall₂.cons (scanObs_addLinkToNode m url).symm hrel⟩
        · rw [if_neg c3]
          obtain ⟨d', heq, hrel⟩ := addLinks_break_decomp url b d hd br hbr r
          exact ⟨m :: d', by rw [heq, List.cons_append], List.Forall₂.cons rfl hrel⟩

/-- The title scan stops at a separator node: the computed title depends
neither on the tail nor on the accumulated link. -/
theorem titleAux_break_fst (br : ADFNode) (hbr : isBreakNode br = true)
    (f : Bool) (t : String) (u₁ u₂ : Option String) (r₁ r₂ : List ADFNode) :
    Option.map Prod.fst (extractTitleInfoAux f t u₁ (br :: r₁)) =
      Option.map Prod.fst (extractTitleInfoAux f t u₂ (br :: r₂)) := by
  have h0 := hbr
  simp only [isBreakNode, Bool.and_eq_true, Bool.not_eq_true'] at h0
  obtain ⟨⟨hbt, hbc⟩, hbs⟩ := h0
  have hc1 : ¬((br.ntype == "text" && hasMarkType br ("code")) = true) := by simp [hbc]
  have hc2 : (br.ntype == "text" && optTextHasSep br.text) = true := by simp [hbt, hbs]
  rw [extractTitleInfoAux, extractTitleInfoAux, if_neg hc1, if_neg hc1,
    if_pos hc2, if_pos hc2]
  dsimp only
  by_cases hcond : (f && ((if sepSplitHead (br.text.getD ("")) != ("") then
      t ++ jsTrim (sepSplitHead (br.text.getD (""))) else t) != (""))) = true
  · rw [if_pos hcond, if_pos hcond]
    rfl
  · rw [if_neg hcond, if_neg hcond]

/-- The extracted title is unchanged between observation-equal prefixes and
tails yielding the same title, whatever link accumulators each side holds. -/
theorem titleAux_fst_append : ∀ (d d' : List ADFNode),
    List.Forall₂ (fun m m' => scanObs m = scanObs m') d d' →
    ∀ (t₁ t₂ : List ADFNode),
      (∀ f t u₁ u₂, Option.map Prod.fst (extractTitleInfoAux f t u₁ t₁) =
        Option.map Prod.fst (extractTitleInfoAux f t u₂ t₂)) →
    ∀ f t u₁ u₂, Option.map Prod.fst (extractTitleInfoAux f t u₁ (d ++ t₁)) =
      Option.map Prod.fst (extractTitleInfoAux f t u₂ (d' ++ t₂))
  | [], [], _, t₁, t₂, htail, f, t, u₁, u₂ => htail f t u₁ u₂
  | [], _ :: _, h, _, _, _, _, _, _, _ => nomatch h
  | _ :: _, [], h, _, _, _, _, _, _, _ => nomatch h
  | a :: d, b :: d', h, t₁, t₂, htail, f, t, u₁, u₂ => by
    rcases List.forall₂_cons.mp h with ⟨hab, hrest⟩
    obtain ⟨h1, h2, h3, _⟩ := scanObs_parts hab
    rw [List.cons_append, List.cons_append, extractTitleInfoAux, extractTitleInfoAux,
      ← h1, ← h2, ← h3]
    by_cases c1 : (a.ntype == "text" && hasMarkType a ("code")) = true
    · rw [if_pos c1, if_pos c1]
      exact titleAux_fst_append d d' hrest t₁ t₂ htail true t u₁ u₂
    · rw [if_neg c1, if_neg c1]
      by_cases c2 : (a.ntype == "text" && optTextHasSep a.text) = true
      · rw [if_pos c2, if_pos c2]
        dsimp only
        by_cases hcond : (f && ((if sepSplitHead (a.text.getD ("")) != ("") then
            t ++ jsTrim (sepSplitHead (a.text.getD (""))) else t) != (""))) = true
        · rw [if_pos hcond, if_pos hcond]
          rfl
        · rw [if_neg hcond, if_neg hcond]
      · rw [if_neg c2, if_neg c2]
        by_cases c3 : (f && (a.ntype == "text")) = true
        · rw [if_pos c3, if_pos c3]
          dsimp only
          exact titleAux_fst_append d d' hrest t₁ t₂ htail f _ _ _
        · rw [if_neg c3, if_neg c3]
          exact titleAux_fst_append d d' hrest t₁ t₂ htail f t u₁ u₂

/-- The extracted description is unchanged between observation-equal
prefixes and equal-description tails. -/
theorem descAux_append : ∀ (d d' : List ADFNode),
    List.Forall₂ (fun m m' => scanObs m = scanObs m') d d' →
    ∀ (t₁ t₂ : List ADFNode),
      (∀ f t, extractDescriptionAux f t t₁ = extractDescriptionAux f t t₂) →
    ∀ f t, extractDescriptionAux f t (d ++ t₁) = extractDescriptionAux f t (d' ++ t₂)
  | [], [], _, t₁, t₂, htail, f, t => htail f t
  | [], _ :: _, h, _, _, _, _, _ => nomatch h
  | _ :: _, [], h, _, _, _, _, _ => nomatch h
  | a :: d, b :: d', h, t₁, t₂, htail, f, t => by
    rcases List.forall₂_cons.mp h with ⟨hab, hrest⟩
    obtain ⟨h1, h2, _, h4⟩ := scanObs_parts hab
    rw [List.cons_append, List.cons_append, extractDescriptionAux, extractDescriptionAux,
      ← h1, ← h2, ← h4]
    by_cases cA : (a.ntype == "text") = true
    · rw [if_pos cA, if_pos cA]
      by_cases cB : optTextHasSep a.text = true
      · rw [if_pos cB, if_pos cB]
        dsimp only
        exact descAux_append d d' hrest t₁ t₂ htail true _
      · rw [if_neg cB, if_neg cB]
        by_cases cC : (f && !(hasMarkType a ("em"))) = true
        · rw [if_pos cC, if_pos cC]
          exact descAux_append d d' hrest t₁ t₂ htail f _
        · rw [if_neg cC, if_neg cC]
          exact descAux_append d d' hrest t₁ t₂ htail f t
    · rw [if_neg cA, if_neg cA]
      by_cases cD : (f && (a.ntype == "hardBreak")) = true
      · rw [if_pos cD, if_pos cD]
        exact descAux_append d d' hrest t₁ t₂ htail f _
      · rw [if_neg cD, if_neg cD]
        exact descAux_append d d' hrest t₁ t₂ htail f t

/-- After the separator has been found, the timestamp pass does not change
the extracted description: an overwritten emphasis node remains an emphasis
node (skipped by the scan), and an appended space-plus-timestamp run adds a
trailing space the final trim removes. -/
theorem descAux_timestamp_tail (now : String)
    (hnow : optTextHasSep (some ("(" ++ now ++ ")")) = false) :
    ∀ r : List ADFNode,
      (∀ x, r.find? isEmTextNode = some x → optTextHasSep x.text = false) →
      ∀ t, extractDescriptionAux true t (appendOrUpdateTimestamp now r) =
        extractDescriptionAux true t r
  | [], _, t => by
    have hs1 : (spaceTextNode.ntype == "text") = true := rfl
    have hs2 : ¬(optTextHasSep spaceTextNode.text = true) := by decide
    have hs3 : (true && !(hasMarkType spaceTextNode ("em"))) = true := by decide
    have ht1 : ((timestampTextNode now).ntype == "text") = true := rfl
    have ht2 : ¬(optTextHasSep (timestampTextNode now).text = true) := by
      have hx : (timestampTextNode now).text = some ("(" ++ now ++ ")") := rfl
      rw [hx, hnow]
      simp
    have hem : hasMarkType (timestampTextNode now) ("em") = true := rfl
    have ht3 : ¬((true && !(hasMarkType (timestampTextNode now) ("em"))) = true) := by
      rw [hem]
      simp
    have hsp : jsTrim (spaceTextNode.text.getD ("")) = "" := rfl
    have key : ∀ s : String,
        extractDescriptionAux true s [spaceTextNode, timestampTextNode now] =
          jsTrim (s ++ " " ++ "") := by
      intro s
      rw [extractDescriptionAux, if_pos hs1, if_neg hs2, if_pos hs3,
        extractDescriptionAux, if_pos ht1, if_neg ht2, if_neg ht3,
        extractDescriptionAux, hsp]
    rw [appendOrUpdateTimestamp, key t, extractDescriptionAux]
    exact jsTrim_append_space t
  | n :: r, hfem, t => by
    by_cases hn : isEmTextNode n = true
    · have hsep : optTextHasSep n.text = false :=
        hfem n (by rw [List.find?_cons_of_pos _ hn])
      have hparts : (n.ntype == "text") = true ∧ hasMarkType n ("em") = true := by
        simpa [isEmTextNode, Bool.and_eq_true] using hn
      rw [appendOrUpdateTimestamp, if_pos hn, extractDescriptionAux, extractDescriptionAux,
        if_pos (by rw [setText_ntype]; exact hparts.1),
        if_neg (by rw [setText_text]; rw [hnow]; simp),
        if_neg (by simp [hasMarkType_setText, hparts.2]),
        if_pos hparts.1, if_neg (by simp [hsep]), if_neg (by simp [hparts.2])]
    · have hn' : isEmTextNode n = false := by simpa using hn
      have hfem' : ∀ x, r.find? isEmTextNode = some x → optTextHasSep x.text = false := by
        intro x hx
        exact hfem x (by rw [List.find?_cons_of_neg _ (by simp [hn']), hx])
      rw [appendOrUpdateTimestamp, if_neg (by simp [hn']), extractDescriptionAux,
        extractDescriptionAux]
      by_cases cA : (n.ntype == "text") = true
      · rw [if_pos cA, if_pos cA]
        by_cases cB : optTextHasSep n.text = true
        · rw [if_pos cB, if_pos cB]
          dsimp only
          exact descAux_timestamp_tail now hnow r hfem' _
        · rw [if_neg cB, if_neg cB]
          by_cases cC : (true && !(hasMarkType n ("em"))) = true
          · rw [if_pos cC, if_pos cC]
            exact descAux_timestamp_tail now hnow r hfem' _
          · rw [if_neg cC, if_neg cC]
            exact descAux_timestamp_tail now hnow r hfem' t
      · rw [if_neg cA, if_neg cA]
        by_cases cD : (true && (n.ntype == "hardBreak")) = true
        · rw [if_pos cD, if_pos cD]
          exact descAux_timestamp_tail now hnow r hfem' _
        · rw [if_neg cD, if_neg cD]
          exact descAux_timestamp_tail now hnow r hfem' t

/-- The observation relation between lists is symmetric. -/
theorem forall₂_obs_symm :
    ∀ {d d' : List ADFNode}, List.Forall₂ (fun m m' => scanObs m = scanObs m') d d' →
      List.Forall₂ (fun m m' => scanObs m = scanObs m') d' d := by
  intro d d' h
  induction h with
  | nil => exact List.Forall₂.nil
  | cons hab _ ih => exact List.Forall₂.cons hab.symm ih

/-- The two mutation passes change neither the extracted title nor the
extracted description of a parse-stable paragraph (the timestamp rendering
being separator-free). -/
theorem paragraph_roundtrip (url now : String) (c : List ADFNode)
    (hwf : parseStableParagraph c = true)
    (hnow : optTextHasSep (some ("(" ++ now ++ ")")) = false) :
    Option.map Prod.fst (extractTitleInfoAux false ("") none
        (appendOrUpdateTimestamp now (addLinkToTitleNodes url false c))) =
      Option.map Prod.fst (extractTitleInfoAux false ("") none c) ∧
    extractDescriptionAux false ("")
        (appendOrUpdateTimestamp now (addLinkToTitleNodes url false c)) =
      extractDescriptionAux false ("") c := by
  have h' := hwf
  unfold parseStableParagraph at h'
  rw [Bool.and_eq_true, Bool.and_eq_true] at h'
  obtain ⟨⟨hA, hB⟩, hC⟩ := h'
  cases hfb : c.find? (fun m => isEmTextNode m || isBreakNode m) with
  | none => rw [hfb] at hB; simp at hB
  | some first =>
    rw [hfb] at hB
    simp only at hB
    rw [Bool.and_eq_true, Bool.not_eq_true'] at hB
    obtain ⟨hbr, hnem⟩ := hB
    obtain ⟨d, r, hc, hd⟩ := find?_decomp _ c first hfb
    subst hc
    have hdem : ∀ m ∈ d, isEmTextNode m = false := by
      intro m hm
      have h := hd m hm
      simp only [Bool.or_eq_false_iff] at h
      exact h.1
    have hdbr : ∀ m ∈ d, isBreakNode m = false := by
      intro m hm
      have h := hd m hm
      simp only [Bool.or_eq_false_iff] at h
      exact h.2
    obtain ⟨d', heq, hrel⟩ := addLinks_break_decomp url false d hdbr first hbr r
    have hrel' : List.Forall₂ (fun m m' => scanObs m = scanObs m') d' d :=
      forall₂_obs_symm hrel
    have hd'em : ∀ m ∈ d', isEmTextNode m = false := forall₂_obs_no_em hrel hdem
    have happend : appendOrUpdateTimestamp now (d' ++ first :: r) =
        d' ++ appendOrUpdateTimestamp now (first :: r) :=
      appendTimestamp_append_noEm now d' hd'em (first :: r)
    have happendcons : appendOrUpdateTimestamp now (first :: r) =
        first :: appendOrUpdateTimestamp now r := by
      rw [appendOrUpdateTimestamp, if_neg (by simp [hnem])]
    have hfemr : ∀ x, r.find? isEmTextNode = some x → optTextHasSep x.text = false := by
      intro x hx
      have hfindc : (d ++ first :: r).find? isEmTextNode = r.find? isEmTextNode := by
        rw [find?_append_none isEmTextNode d hdem,
          List.find?_cons_of_neg _ (by simp [hnem])]
      rw [hfindc, hx] at hC
      simp only at hC
      rw [Bool.not_eq_true'] at hC
      exact hC
    have hbparts := hbr
    simp only [isBreakNode, Bool.and_eq_true, Bool.not_eq_true'] at hbparts
    obtain ⟨⟨hbt, hbc⟩, hbs⟩ := hbparts
    constructor
    · rw [heq, happend, happendcons]
      exact titleAux_fst_append d' d hrel' _ _
        (fun f t u₁ u₂ => titleAux_break_fst first hbr f t u₁ u₂ _ _) false ("") none none
    · rw [heq, happend, happendcons]
      refine descAux_append d' d hrel' _ _ ?_ false ("")
      intro f t
      rw [extractDescriptionAux, if_pos (by simp [hbt]), if_pos hbs,
        extractDescriptionAux, if_pos (by simp [hbt]), if_pos hbs]
      dsimp only
      exact descAux_timestamp_tail now hnow r hfemr _

/-- Unpack section-level parse stability to one paragraph. -/
theorem parseStableSection_spec (S : List ADFNode) (storyId : String)
    (h : parseStableSection S storyId = true) :
    ∀ b ∈ S, (b.ntype == "bulletList") = true → ∀ bc, b.content = some bc →
      ∀ li ∈ bc, (li.ntype == "listItem") = true → ∀ lc, li.content = some lc →
        (extractStoryId lc == some storyId) = true →
        ∀ p, lc.find? (fun n => n.ntype == "paragraph") = some p →
          ∀ c, p.content = some c → parseStableParagraph c = true := by
  intro b hb hbt bc hbc li hli hlit lc hlc hid p hp c hpc
  have h1 := List.all_eq_true.mp h b hb
  simp only [hbt, Bool.not_true, Bool.false_or] at h1
  rw [hbc] at h1
  simp only at h1
  have h2 := List.all_eq_true.mp h1 li hli
  simp only [hlit, Bool.not_true, Bool.false_or] at h2
  rw [hlc] at h2
  simp only at h2
  simp only [hid, Bool.not_true, Bool.false_or] at h2
  rw [hp] at h2
  simp only at h2
  rw [hpc] at h2
  exact h2

/-- The list-item transformation keeps the presence of content. -/
theorem transformListItem_isSome (storyId url now : String) (li : ADFNode) :
    (transformListItem storyId url now li).content.isSome = li.content.isSome := by
  unfold transformListItem
  by_cases hlit : (li.ntype == "listItem") = true
  · rw [if_pos hlit]
    cases hlc : li.content with
    | none =>
      dsimp only
      rw [hlc]
    | some lc =>
      dsimp only
      by_cases hid : (extractStoryId lc == some storyId) = true
      · rw [if_pos hid, setContent_content]
        rfl
      · rw [if_neg hid, hlc]
  · rw [if_neg hlit]

/-- Case split from an equality of projected record options. -/
theorem except_proj_cases {ε α β : Type} (f : α → β) :
    ∀ (x y : Except ε (Option α)),
      Except.map (Option.map f) x = Except.map (Option.map f) y →
      (∃ e, x = .error e ∧ y = .error e) ∨ (x = .ok none ∧ y = .ok none) ∨
        (∃ a b, x = .ok (some a) ∧ y = .ok (some b) ∧ f a = f b)
  | .error e, .error e', h => by
    left
    refine ⟨e, rfl, ?_⟩
    simp only [Except.map, Except.error.injEq] at h
    rw [h]
  | .error e, .ok v, h => by simp [Except.map] at h
  | .ok v, .error e, h => by simp [Except.map] at h
  | .ok none, .ok none, _ => by right; left; exact ⟨rfl, rfl⟩
  | .ok none, .ok (some b), h => by simp [Except.map] at h
  | .ok (some a), .ok none, h => by simp [Except.map] at h
  | .ok (some a), .ok (some b), h => by
    right; right
    refine ⟨a, b, rfl, rfl, ?_⟩
    simpa [Except.map] using h

/-- Case split from an equality of projected record lists. -/
theorem except_list_cases {ε α β : Type} (f : α → β) :
    ∀ (x y : Except ε (List α)),
      Except.map (List.map f) x = Except.map (List.map f) y →
      (∃ e, x = .error e ∧ y = .error e) ∨
        (∃ xs ys, x = .ok xs ∧ y = .ok ys ∧ xs.map f = ys.map f)
  | .error e, .error e', h => by
    left
    refine ⟨e, rfl, ?_⟩
    simp only [Except.map, Except.error.injEq] at h
    rw [h]
  | .error e, .ok v, h => by simp [Except.map] at h
  | .ok v, .error e, h => by simp [Except.map] at h
  | .ok xs, .ok ys, h => by
    right
    exact ⟨xs, ys, rfl, rfl, by simpa [Except.map] using h⟩

/-- One list item parses to the same id, title and description after the
completion transformation, including the same thrown errors. -/
theorem parseItem_key (storyId url now : String) (li : ADFNode)
    (hnow : optTextHasSep (some ("(" ++ now ++ ")")) = false)
    (hwf : (li.ntype == "listItem") = true → ∀ lc, li.content = some lc →
      (extractStoryId lc == some storyId) = true →
      ∀ p, lc.find? (fun n => n.ntype == "paragraph") = some p →
        ∀ c, p.content = some c → parseStableParagraph c = true) :
    Except.map (Option.map parsedStoryKey)
        (parseShellStoryFromListItem (transformListItem storyId url now li)) =
      Except.map (Option.map parsedStoryKey) (parseShellStoryFromListItem li) := by
  by_cases hlit : (li.ntype == "listItem") = true
  · cases hlc : li.content with
    | none =>
      have hfix : transformListItem storyId url now li = li := by
        unfold transformListItem
        rw [if_pos hlit, hlc]
      rw [hfix]
    | some lc =>
      by_cases hid : (extractStoryId lc == some storyId) = true
      · have h2 : transformListItem storyId url now li =
            setContent li (some (lc.map (transformParagraph url now))) := by
          unfold transformListItem
          rw [if_pos hlit, hlc]
          dsimp only
          rw [if_pos hid]
        rw [h2]
        unfold parseShellStoryFromListItem
        rw [if_pos (by rw [setContent_ntype]; exact hlit), if_pos hlit,
          setContent_content, hlc]
        dsimp only
        have hfirst : ∀ p, lc.find? (fun n => n.ntype == "paragraph") = some p →
            ∀ c, p.content = some c →
              (c.all fun m => !(isEmTextNode m && hasMarkType m ("code"))) = true := by
          intro p hp c hpc
          have h3 := hwf hlit lc hlc hid p hp c hpc
          unfold parseStableParagraph at h3
          rw [Bool.and_eq_true, Bool.and_eq_true] at h3
          exact h3.1.1
        rw [extractStoryId_map_transform url now lc hfirst]
        cases hsid : extractStoryId lc with
        | none => rfl
        | some sid =>
          dsimp only
          have hfind : (lc.map (transformParagraph url now)).find?
              (fun n => n.ntype == "paragraph") =
              (lc.find? (fun n => n.ntype == "paragraph")).map
                (transformParagraph url now) :=
            find?_map_congr _ _ lc (fun n _ => by rw [transformParagraph_ntype])
          unfold extractTitleInfo extractDescription
          rw [hfind]
          cases hp : lc.find? (fun n => n.ntype == "paragraph") with
          | none => rfl
          | some p =>
            have hpt : (p.ntype == "paragraph") = true := find?_prop _ lc p hp
            rw [Option.map_some']
            dsimp only
            cases hpc : p.content with
            | none =>
              have hfixp : transformParagraph url now p = p := by
                unfold transformParagraph
                rw [if_pos hpt, hpc]
              rw [hfixp, hpc]
            | some cc =>
              have htp : transformParagraph url now p = setContent p
                  (some (appendOrUpdateTimestamp now (addLinkToTitleNodes url false cc))) := by
                unfold transformParagraph
                rw [if_pos hpt, hpc]
              obtain ⟨htitle, hdesc⟩ :=
                paragraph_roundtrip url now cc (hwf hlit lc hlc hid p hp cc hpc) hnow
              rw [htp, setContent_content]
              dsimp only
              rw [hdesc]
              cases ht1 : extractTitleInfoAux false ("") none cc with
              | none =>
                have ht2 : extractTitleInfoAux false ("") none
                    (appendOrUpdateTimestamp now (addLinkToTitleNodes url false cc)) =
                      none := by
                  rw [ht1] at htitle
                  exact Option.map_eq_none'.mp htitle
                rw [ht2]
              | some ti =>
                rw [ht1] at htitle
                cases ht2 : extractTitleInfoAux false ("") none
                    (appendOrUpdateTimestamp now (addLinkToTitleNodes url false cc)) with
                | none => rw [ht2] at htitle; simp at htitle
                | some ti' =>
                  rw [ht2] at htitle
                  simp only [Option.map_some', Option.some.injEq] at htitle
                  dsimp only
                  by_cases hde : (extractDescriptionAux false ("") cc == ("")) = true
                  · rw [if_pos hde, if_pos hde]
                  · rw [if_neg hde, if_neg hde]
                    simp [Except.map, parsedStoryKey, htitle]
      · have hfix : transformListItem storyId url now li = li := by
          unfold transformListItem
          rw [if_pos hlit, hlc]
          dsimp only
          rw [if_neg hid]
        rw [hfix]
  · have hfix : transformListItem storyId url now li = li := by
      unfold transformListItem
      rw [if_neg hlit]
    rw [hfix]

/-- All list items of one bullet list parse to the same projected records
after the completion transformation. -/
theorem parseItems_key (storyId url now : String)
    (hnow : optTextHasSep (some ("(" ++ now ++ ")")) = false) :
    ∀ bc : List ADFNode,
      (∀ li ∈ bc, (li.ntype == "listItem") = true → ∀ lc, li.content = some lc →
        (extractStoryId lc == some storyId) = true →
        ∀ p, lc.find? (fun n => n.ntype == "paragraph") = some p →
          ∀ c, p.content = some c → parseStableParagraph c = true) →
      Except.map (List.map parsedStoryKey)
          (parseListItemsFromBulletList (bc.map (transformListItem storyId url now))) =
        Except.map (List.map parsedStoryKey) (parseListItemsFromBulletList bc)
  | [], _ => rfl
  | li :: bc, hwf => by
    have hwf' := fun li' h => hwf li' (List.mem_cons_of_mem _ h)
    rw [List.map_cons, parseListItemsFromBulletList, parseListItemsFromBulletList]
    have hguard : ((transformListItem storyId url now li).ntype == "listItem"
        && (transformListItem storyId url now li).content.isSome)
        = (li.ntype == "listItem" && li.content.isSome) := by
      rw [transformListItem_ntype, transformListItem_isSome]
    by_cases hg : (li.ntype == "listItem" && li.content.isSome) = true
    · rw [if_pos (by rw [hguard]; exact hg), if_pos hg]
      have hitem := parseItem_key storyId url now li hnow
        (fun hlit lc hlc hid p hp c hpc =>
          hwf li (List.mem_cons_self _ _) hlit lc hlc hid p hp c hpc)
      rcases except_proj_cases parsedStoryKey _ _ hitem with
        ⟨e, hx, hy⟩ | ⟨hx, hy⟩ | ⟨a, b, hx, hy, hab⟩
      · rw [hx, hy]
      · rw [hx, hy]
        dsimp only
        exact parseItems_key storyId url now hnow bc hwf'
      · rw [hx, hy]
        dsimp only
        have hrec := parseItems_key storyId url now hnow bc hwf'
        rcases except_list_cases parsedStoryKey _ _ hrec with
          ⟨e, h1, h2⟩ | ⟨xs, ys, h1, h2, hxy⟩
        · rw [h1, h2]
        · rw [h1, h2]
          dsimp only
          simp only [Except.map, List.map_cons]
          rw [hab, hxy]
    · rw [if_neg (by rw [hguard]; exact hg), if_neg hg]
      exact parseItems_key storyId url now hnow bc hwf'

/-- All top-level bullet lists parse to the same projected records after the
completion transformation. -/
theorem parseAdf_key (storyId url now : String)
    (hnow : optTextHasSep (some ("(" ++ now ++ ")")) = false) :
    ∀ S : List ADFNode,
      (∀ b ∈ S, (b.ntype == "bulletList") = true → ∀ bc, b.content = some bc →
        ∀ li ∈ bc, (li.ntype == "listItem") = true → ∀ lc, li.content = some lc →
          (extractStoryId lc == some storyId) = true →
          ∀ p, lc.find? (fun n => n.ntype == "paragraph") = some p →
            ∀ c, p.content = some c → parseStableParagraph c = true) →
      Except.map (List.map parsedStoryKey)
          (parseShellStoriesFromAdfAux (S.map (transformBulletList storyId url now))) =
        Except.map (List.map parsedStoryKey) (parseShellStoriesFromAdfAux S)
  | [], _ => rfl
  | b :: S, hwf => by
    have hwf' := fun b' h => hwf b' (List.mem_cons_of_mem _ h)
    rw [List.map_cons, parseShellStoriesFromAdfAux, parseShellStoriesFromAdfAux]
    by_cases hbt : (b.ntype == "bulletList") = true
    · cases hbc : b.content with
      | none =>
        have hfix : transformBulletList storyId url now b = b := by
          unfold transformBulletList
          rw [if_pos hbt, hbc]
        have hgf : ¬((b.ntype == "bulletList" && b.content.isSome) = true) := by
          rw [hbc]
          simp
        have hgf2 : ¬((b.ntype == "bulletList"
            && (none : Option (List ADFNode)).isSome) = true) := by simp
        rw [hfix, if_neg hgf, if_neg hgf2]
        exact parseAdf_key storyId url now hnow S hwf'
      | some bc =>
        have h1 : transformBulletList storyId url now b =
            setContent b (some (bc.map (transformListItem storyId url now))) := by
          unfold transformBulletList
          rw [if_pos hbt, hbc]
        rw [h1, if_pos (by rw [setContent_ntype, setContent_content]; simp [hbt]),
          if_pos (by simp [hbt]), setContent_content]
        simp only [Option.getD_some]
        have hitems := parseItems_key storyId url now hnow bc
          (fun li hli hlit lc hlc hid p hp c hpc =>
            hwf b (List.mem_cons_self _ _) hbt bc hbc li hli hlit lc hlc hid p hp c hpc)
        rcases except_list_cases parsedStoryKey _ _ hitems with
          ⟨e, hx, hy⟩ | ⟨xs, ys, hx, hy, hxy⟩
        · rw [hx, hy]
        · rw [hx, hy]
          dsimp only
          have hrec := parseAdf_key storyId url now hnow S hwf'
          rcases except_list_cases parsedStoryKey _ _ hrec with
            ⟨e, h1', h2'⟩ | ⟨zs, ws, h1', h2', hzw⟩
          · rw [h1', h2']
          · rw [h1', h2']
            dsimp only
            simp only [Except.map, List.map_append]
            rw [hxy, hzw]
    · have hfix : transformBulletList storyId url now b = b := by
        unfold transformBulletList
        rw [if_neg hbt]
      have hgf : ¬((b.ntype == "bulletList" && b.content.isSome) = true) := by
        simp [hbt]
      rw [hfix, if_neg hgf, if_neg hgf]
      exact parseAdf_key storyId url now hnow S hwf'

/-- C2 (amended): parsing the completion mutator's output yields, for every
record, the same identifier, title and description as parsing the input, on
a parse-stable section (every matching record's first paragraph places its
separator before any emphasis node, holds no emphasis-and-code node, and
its first emphasis node is separator-free) when the timestamp rendering
contains no separator glyph.  The jiraUrl field, by contrast, picks up the
new hyperlink. -/
theorem parse_after_markCompleted (S : List ADFNode)
    (storyId issueKey issueUrl now : String) (T : List ADFNode)
    (R : List ParsedShellStoryADF)
    (hwf : parseStableSection S storyId = true)
    (hnow : optTextHasSep (some ("(" ++ now ++ ")")) = false)
    (hok : addCompletionMarkerToShellStory S storyId issueKey issueUrl now = .ok T)
    (hparse : parseShellStoriesFromAdf S = .ok R) :
    ∃ R', parseShellStoriesFromAdf T = .ok R' ∧
      R'.map parsedStoryKey = R.map parsedStoryKey := by
  have hT : T = S.map (transformBulletList storyId issueUrl now) := by
    simp only [addCompletionMarkerToShellStory, structuredCloneList_eq_self] at hok
    by_cases hc : sectionContainsStory S storyId = true
    · rw [if_pos hc] at hok
      exact (Except.ok.inj hok).symm
    · rw [if_neg hc] at hok
      simp at hok
  have hkey := parseAdf_key storyId issueUrl now hnow S (parseStableSection_spec S storyId hwf)
  rw [← hT] at hkey
  unfold parseShellStoriesFromAdf at hparse ⊢
  rw [hparse] at hkey
  cases hpt : parseShellStoriesFromAdfAux T with
  | error e =>
    rw [hpt] at hkey
    exact absurd hkey (by simp [Except.map])
  | ok R' =>
    rw [hpt] at hkey
    refine ⟨R', rfl, ?_⟩
    simpa [Except.map] using hkey

/-- C2 witness: the mutator's output on a concrete parse-stable section
re-parses to the same id, title and description. -/
theorem parse_after_markCompleted_witness :
    ∃ R', parseShellStoriesFromAdf (unknownSampleSection.map
        (transformBulletList ("st001") ("https://jira.example/browse/P-1")
          ("2025-01-15T10:30:00.000Z"))) = .ok R' ∧
      R'.map parsedStoryKey = [(("st001"), ("T"), ("d"))] := by
  obtain ⟨R', h1, h2⟩ := parse_after_markCompleted unknownSampleSection ("st001")
    ("P-1") ("https://jira.example/browse/P-1") ("2025-01-15T10:30:00.000Z")
    (unknownSampleSection.map
      (transformBulletList ("st001") ("https://jira.example/browse/P-1")
        ("2025-01-15T10:30:00.000Z")))
    _ (by decide) (by decide) (by rfl) (by rfl)
  refine ⟨R', h1, ?_⟩
  rw [h2]
  rfl

/-- C2 counterexample: with an emphasised word inside the title, the title
re-parsed after completion marking is the timestamp, not the original. -/
theorem parse_roundtrip_counterexample :
    ∃ T, addCompletionMarkerToShellStory emTitleSection ("st001") ("P-1")
        ("https://jira.example/browse/P-1") ("2025-01-15T10:30:00.000Z") = .ok T ∧
      Except.map (List.map parsedStoryKey) (parseShellStoriesFromAdf emTitleSection) =
        .ok [(("st001"), ("Login Fast"), ("fast checkout"))] ∧
      Except.map (List.map parsedStoryKey) (parseShellStoriesFromAdf T) =
        .ok [(("st001"), ("Login (2025-01-15T10:30:00.000Z)"), ("fast checkout"))] ∧
      ("Login (2025-01-15T10:30:00.000Z)") ≠ ("Login Fast") :=
  ⟨emTitleSection.map (transformBulletList ("st001") ("https://jira.example/browse/P-1")
      ("2025-01-15T10:30:00.000Z")),
    by rfl, by rfl, by rfl, by decide⟩

end ADF
